import Mathlib

/-!
Verification of the runtime scheduling core of the sera-ai gateway.

Each namespace below is a shallow embedding of one TypeScript module:

* Coalesce    — src/agents/request-coalescing.ts
* CmdQueue    — src/process/command-queue.ts (+ lanes.ts)
* TimerMgr    — src/infra/timer-manager.ts
* Subagent    — src/agents/subagent-registry.ts
* AuthPreload — src/agents/auth-preload.ts

Module-level mutable state becomes an explicit state structure; every
exported function becomes a pure state transformer; asynchronous
callbacks (timer firings, task settlement, background refreshes) become
explicit events of a step relation.  JavaScript Maps are modelled as
association lists that preserve insertion order (Map.set updates in
place, delete removes, iteration follows insertion order), promises as
allocated identifiers together with a log of resolutions.  Logging calls
are dropped; they do not affect state.
-/

namespace SpecUtil

/-- Lookup in an insertion-ordered association list (JS Map.get). -/
def lookupA {α β : Type} [DecidableEq α] : List (α × β) → α → Option β
  | [], _ => none
  | (k, v) :: rest, key => if k = key then some v else lookupA rest key

/-- JS Map.set: replace in place when present, else append at the end. -/
def setA {α β : Type} [DecidableEq α] : List (α × β) → α → β → List (α × β)
  | [], key, v => [(key, v)]
  | (k, w) :: rest, key, v =>
      if k = key then (key, v) :: rest else (k, w) :: setA rest key v

/-- JS Map.delete: remove the entry for the key, if any. -/
def eraseA {α β : Type} [DecidableEq α] : List (α × β) → α → List (α × β)
  | [], _ => []
  | (k, w) :: rest, key => if k = key then rest else (k, w) :: eraseA rest key

/-- Whether one character list starts with another. -/
def listStartsWith {α : Type} [DecidableEq α] : List α → List α → Bool
  | _, [] => true
  | [], _ :: _ => false
  | a :: as, b :: bs => a = b && listStartsWith as bs

/-- Whether a character list contains another as a contiguous
sublist. -/
def listContainsSub {α : Type} [DecidableEq α] : List α → List α → Bool
  | [], pat => pat.isEmpty
  | a :: rest, pat => listStartsWith (a :: rest) pat || listContainsSub rest pat

/-- JS String.prototype.includes. -/
def strContains (s pat : String) : Bool :=
  listContainsSub s.data pat.data

/-- JS whitespace test for trimming (the characters relevant here). -/
def isWhitespaceChar (c : Char) : Bool :=
  c = ' ' || c = '\t' || c = '\n' || c = '\r'

/-- JS String.prototype.trim. -/
def trimString (s : String) : String :=
  ⟨((s.data.dropWhile isWhitespaceChar).reverse.dropWhile
      isWhitespaceChar).reverse⟩

/-- JS String.prototype.toLowerCase (ASCII range). -/
def lowerString (s : String) : String :=
  ⟨s.data.map Char.toLower⟩

end SpecUtil

namespace Coalesce

open SpecUtil

/-- CoalesceMessage (request-coalescing.ts). -/
structure Msg where
  text : String
  images : List (String × String) := []
  timestamp : Nat
  senderId : Option String := none
  senderName : Option String := none
deriving Repr, DecidableEq

/-- CoalesceWindow.  The resolve field of the source is a chain of promise
resolvers built by successive callers; it is modelled as the list of
promise ids the chain resolves, in invocation order (first caller first).
The timer handle is implicit: a window in the active map always has a
pending timer, and closeWindow clears it, so timer firings are modelled
as close events on whatever window is in the map. -/
structure CoalesceWindow where
  sessionKey : String
  messages : List Msg
  startedAt : Nat
  waiters : List Nat
deriving Repr, DecidableEq

/-- CoalesceConfig after configureCoalescing filled the defaults.
Exclude patterns are regexes in the source; a regex test is modelled as a
Boolean predicate on the session key. -/
structure Config where
  enabled : Bool
  windowMs : Nat
  maxMessages : Nat
  excludePatterns : List (String → Bool)

/-- The module state: the activeWindows map plus the promise machinery
(ids handed out so far and the log of resolved promises with their
values). -/
structure St where
  activeWindows : List (String × CoalesceWindow)
  resolved : List (Nat × List Msg)
  nextPid : Nat
deriving Repr, DecidableEq

/-- Initial module state (empty map, no promises). -/
def state0 : St := { activeWindows := [], resolved := [], nextPid := 0 }

/-- shouldSkipCoalescing. -/
def shouldSkipCoalescing (cfg : Config) (sessionKey : String) : Bool :=
  if !cfg.enabled then true
  else if strContains sessionKey "subagent:" then true
  else cfg.excludePatterns.any (fun pattern => pattern sessionKey)

/-- Resolve a promise id with a message list (the effect of calling a
stored resolve callback). -/
def resolvePid (s : St) (pid : Nat) (msgs : List Msg) : St :=
  { s with resolved := s.resolved ++ [(pid, msgs)] }

/-- closeWindow: clear the timer, delete the window from the map, then
invoke the accumulated resolve chain with the accumulated messages. -/
def closeWindow (sessionKey : String) (s : St) : St :=
  match lookupA s.activeWindows sessionKey with
  | none => s
  | some w =>
      { s with
        activeWindows := eraseA s.activeWindows sessionKey,
        resolved := s.resolved ++ w.waiters.map (fun pid => (pid, w.messages)) }

/-- coalesceMessage.  Returns the promise id of the caller's future and
the new state.  In the branch where the added message reaches
maxMessages, the source calls closeWindow (which fires the resolve chain
built so far and deletes the window) and only afterwards chains the
caller's own resolve onto the now-orphaned window object, which no code
path ever invokes again — so that promise id joins no waiter list. -/
def coalesceMessage (cfg : Config) (sessionKey : String) (message : Msg)
    (now : Nat) (s : St) : Nat × St :=
  let pid := s.nextPid
  let s := { s with nextPid := s.nextPid + 1 }
  if shouldSkipCoalescing cfg sessionKey then
    (pid, resolvePid s pid [message])
  else
    match lookupA s.activeWindows sessionKey with
    | some existing =>
        let grown := { existing with messages := existing.messages ++ [message] }
        let s := { s with activeWindows := setA s.activeWindows sessionKey grown }
        if grown.messages.length ≥ cfg.maxMessages then
          -- closeWindow fires the chain accumulated by earlier callers;
          -- the caller's own resolve is attached afterwards to the
          -- discarded window object and is never reachable again.
          (pid, closeWindow sessionKey s)
        else
          (pid,
            { s with
              activeWindows :=
                setA s.activeWindows sessionKey
                  { grown with waiters := grown.waiters ++ [pid] } })
    | none =>
        (pid,
          { s with
            activeWindows :=
              setA s.activeWindows sessionKey
                { sessionKey := sessionKey, messages := [message],
                  startedAt := now, waiters := [pid] } })

/-- flushCoalesceWindow. -/
def flushCoalesceWindow (sessionKey : String) (s : St) : St :=
  closeWindow sessionKey s

/-- clearAllWindows: close every window, iterating the keys of the map
(in insertion order; closeWindow only deletes the key being visited). -/
def clearAllWindows (s : St) : St :=
  (s.activeWindows.map Prod.fst).foldl (fun st k => closeWindow k st) s

/-- combineMessages. -/
def combineMessages (messages : List Msg) : String × List (String × String) :=
  match messages with
  | [] => ("", [])
  | [m] => (m.text, m.images)
  | _ =>
      let textParts := (messages.filter (fun m => trimString m.text ≠ "")).map
        (fun m => trimString m.text)
      let allImages := messages.flatMap (fun m => m.images)
      (String.intercalate "\n\n" textParts, allImages)

/-- hasActiveWindow. -/
def hasActiveWindow (sessionKey : String) (s : St) : Bool :=
  (lookupA s.activeWindows sessionKey).isSome

/-- getPendingCount. -/
def getPendingCount (sessionKey : String) (s : St) : Nat :=
  match lookupA s.activeWindows sessionKey with
  | some w => w.messages.length
  | none => 0

/-- The events that can reach the coalescer: an API call, a window timer
firing, an explicit flush, clearAllWindows. -/
inductive Ev where
  | call (sessionKey : String) (message : Msg) (now : Nat)
  | timerFire (sessionKey : String)
  | flush (sessionKey : String)
  | clearAll
deriving Repr

/-- One event step. -/
def step (cfg : Config) (s : St) : Ev → St
  | .call k m now => (coalesceMessage cfg k m now s).2
  | .timerFire k => closeWindow k s
  | .flush k => flushCoalesceWindow k s
  | .clearAll => clearAllWindows s

/-- Run a list of events. -/
def run (cfg : Config) (s : St) : List Ev → St
  | [] => s
  | e :: rest => run cfg (step cfg s e) rest

/-- Promise ids that have been resolved. -/
def resolvedIds (s : St) : List Nat := s.resolved.map Prod.fst

/-- Promise ids still chained into some active window's resolve. -/
def allWaiters (s : St) : List Nat :=
  s.activeWindows.flatMap (fun kw => kw.2.waiters)

/-- The three facts that keep a lost promise lost: the id is below the
allocation counter, unresolved, and chained into no active window. -/
def LostPid (s : St) (pid : Nat) : Prop :=
  pid < s.nextPid ∧ pid ∉ resolvedIds s ∧ pid ∉ allWaiters s

/-- Concrete configuration matching the repository test
"closes window when max messages reached": windowMs 5000,
maxMessages 3. -/
def cfgMax3 : Config :=
  { enabled := true, windowMs := 5000, maxMessages := 3,
    excludePatterns := [] }

/-- A concrete numbered message (numbered by timestamp, keeping the
text literal). -/
def msgN (n : Nat) : Msg := { text := "m", timestamp := n }

/-- Three rapid messages on one session — the third reaches
maxMessages. -/
def closingTrace : List Ev :=
  [Ev.call "session-1" (msgN 1) 0, Ev.call "session-1" (msgN 2) 0,
   Ev.call "session-1" (msgN 3) 0]

end Coalesce

namespace CmdQueue

open SpecUtil

/-- TaskPriority (lanes.ts).  The numeric values are the scheduling key;
enqueueWithPriority clamps arbitrary numbers into the bucket range, so
priorities are kept as plain naturals. -/
def urgentPriority : Nat := 0

/-- TaskPriority.Normal. -/
def normalPriority : Nat := 1

/-- TaskPriority.Background. -/
def backgroundPriority : Nat := 2

/-- CommandLane.Main. -/
def mainLane : String := "main"

/-- QueueEntry.  The task callable and the resolve/reject callbacks are
identified by the promise id pid; onWait is likewise identified by an
optional callback id (its invocation is a pure logging/notification side
effect with no influence on scheduler state). -/
structure QueueEntry where
  pid : Nat
  enqueuedAt : Nat
  warnAfterMs : Nat
  priority : Nat
  sessionKey : Option String := none
  onWait : Option Nat := none
deriving Repr, DecidableEq

/-- LaneState.  The draining flag of the source only guards against
re-entrant pumping during one synchronous drain; the drain below is a
single atomic loop, so the flag is always false between steps. -/
structure LaneState where
  lane : String
  buckets : List (List QueueEntry)
  active : Nat
  activeTaskIds : List Nat
  maxConcurrent : Nat
deriving Repr, DecidableEq

/-- SessionLaneState. -/
structure SessionLaneState where
  sessionKey : String
  queue : List QueueEntry
  active : Bool
deriving Repr, DecidableEq

/-- The module-level mutable state of command-queue.ts.  The clock stands
for Date.now(); it only feeds enqueuedAt (and hence the wait-warning
side channel), never a scheduling decision. -/
structure St where
  lanes : List (String × LaneState)
  nextTaskId : Nat
  sessionLanes : List (String × SessionLaneState)
  maxConcurrentSessions : Nat
  activeSessionCount : Nat
  clock : Nat
deriving Repr, DecidableEq

/-- Initial module state (nextTaskId = 1, maxConcurrentSessions = 16). -/
def state0 : St :=
  { lanes := [], nextTaskId := 1, sessionLanes := [],
    maxConcurrentSessions := 16, activeSessionCount := 0, clock := 0 }

/-- createEmptyBuckets. -/
def createEmptyBuckets : List (List QueueEntry) := [[], [], []]

/-- getLaneState: fetch or create (maxConcurrent = 1). -/
def getLaneState (s : St) (lane : String) : LaneState × St :=
  match lookupA s.lanes lane with
  | some st => (st, s)
  | none =>
      let created : LaneState :=
        { lane := lane, buckets := createEmptyBuckets, active := 0,
          activeTaskIds := [], maxConcurrent := 1 }
      (created, { s with lanes := s.lanes ++ [(lane, created)] })

/-- getSessionLaneState: fetch or create. -/
def getSessionLaneState (s : St) (sessionKey : String) : SessionLaneState × St :=
  match lookupA s.sessionLanes sessionKey with
  | some st => (st, s)
  | none =>
      let created : SessionLaneState :=
        { sessionKey := sessionKey, queue := [], active := false }
      (created, { s with sessionLanes := s.sessionLanes ++ [(sessionKey, created)] })

/-- getTotalQueued. -/
def getTotalQueued (state : LaneState) : Nat :=
  state.buckets.foldl (fun sum bucket => sum + bucket.length) 0

/-- dequeueHighestPriority: shift the first entry of the first non-empty
bucket, returning it together with the updated bucket list. -/
def dequeueBuckets :
    List (List QueueEntry) → Option (QueueEntry × List (List QueueEntry))
  | [] => none
  | bucket :: rest =>
      match bucket with
      | e :: tail => some (e, tail :: rest)
      | [] =>
          match dequeueBuckets rest with
          | some (e, rest2) => some (e, [] :: rest2)
          | none => none

/-- dequeueHighestPriority on a LaneState. -/
def dequeueHighestPriority (state : LaneState) :
    Option (QueueEntry × LaneState) :=
  match dequeueBuckets state.buckets with
  | some (e, buckets2) => some (e, { state with buckets := buckets2 })
  | none => none

/-- Bucket index for a priority in a bucket list of length n:
min(max(0, priority), n - 1).  Priorities are naturals, so the max with
0 is the identity. -/
def bucketIndexFor (n priority : Nat) : Nat :=
  min (max 0 priority) (n - 1)

/-- enqueueWithPriority on the bucket list: push the entry onto
bucket[bucketIndex]. -/
def enqBuckets (bs : List (List QueueEntry)) (entry : QueueEntry) :
    List (List QueueEntry) :=
  let bucketIndex := bucketIndexFor bs.length entry.priority
  bs.set bucketIndex ((bs.getD bucketIndex []) ++ [entry])

/-- enqueueWithPriority on a LaneState. -/
def enqueueWithPriority (state : LaneState) (entry : QueueEntry) : LaneState :=
  { state with buckets := enqBuckets state.buckets entry }

/-- The pump loop of drainLane: while active < maxConcurrent and some
bucket is non-empty, dequeue, allocate a task id, mark it active and
launch the task (the task body runs asynchronously; its settlement is a
separate event).  Fuel bounds the iteration count; the loop removes one
queued entry per iteration, so fuel = getTotalQueued runs it to the
loop-condition failure exactly as the source while loop does. -/
def pumpLane (fuel : Nat) (state : LaneState) (nextTaskId : Nat) :
    LaneState × Nat :=
  match fuel with
  | 0 => (state, nextTaskId)
  | fuel + 1 =>
      if state.active < state.maxConcurrent ∧ getTotalQueued state > 0 then
        match dequeueHighestPriority state with
        | none => (state, nextTaskId)
        | some (_, state2) =>
            -- wait-warning and dequeue logging dropped (no state effect)
            let taskId := nextTaskId
            let state3 :=
              { state2 with
                active := state2.active + 1,
                activeTaskIds := state2.activeTaskIds ++ [taskId] }
            pumpLane fuel state3 (nextTaskId + 1)
      else (state, nextTaskId)

/-- drainLane. -/
def drainLane (s : St) (lane : String) : St :=
  let (state, s) := getLaneState s lane
  let (state2, nextId) := pumpLane (getTotalQueued state) state s.nextTaskId
  { s with lanes := setA s.lanes lane state2, nextTaskId := nextId }

/-- Settlement of a named-lane task (the async continuation in drainLane):
decrement active, drop the task id, pump again.  A no-op unless the task
id is actually running in that lane. -/
def completeLaneTask (s : St) (lane : String) (taskId : Nat) : St :=
  match lookupA s.lanes lane with
  | none => s
  | some state =>
      if taskId ∈ state.activeTaskIds then
        let state2 :=
          { state with
            active := state.active - 1,
            activeTaskIds := state.activeTaskIds.filter (fun t => t ≠ taskId) }
        let (state3, nextId) := pumpLane (getTotalQueued state2) state2 s.nextTaskId
        { s with lanes := setA s.lanes lane state3, nextTaskId := nextId }
      else s

/-- lane.trim() || CommandLane.Main. -/
def cleanLane (lane : String) : String :=
  if trimString lane = "" then mainLane else trimString lane

/-- setCommandLaneConcurrency. -/
def setCommandLaneConcurrency (s : St) (lane : String) (maxConcurrent : Nat) : St :=
  let cleaned := cleanLane lane
  let (state, s) := getLaneState s cleaned
  let state2 := { state with maxConcurrent := max 1 maxConcurrent }
  let s := { s with lanes := setA s.lanes cleaned state2 }
  drainLane s cleaned

/-- enqueueCommandInLane.  The returned promise is the entry's pid; here
the caller supplies it implicitly via nextPid-like discipline of the
event layer, so the function takes the entry options directly. -/
def enqueueCommandInLane (s : St) (lane : String) (pid : Nat)
    (warnAfterMs : Nat) (priority : Nat) (onWait : Option Nat) : St :=
  let cleaned := cleanLane lane
  let (state, s) := getLaneState s cleaned
  let entry : QueueEntry :=
    { pid := pid, enqueuedAt := s.clock, warnAfterMs := warnAfterMs,
      priority := priority, onWait := onWait }
  let s := { s with lanes := setA s.lanes cleaned (enqueueWithPriority state entry) }
  drainLane s cleaned

/-- drainSessionLane: guards (already active / empty queue / global cap
reached), then shift the head entry, mark the session active, bump the
global count and launch the task. -/
def drainSessionLane (s : St) (sessionKey : String) : St :=
  let (state, s) := getSessionLaneState s sessionKey
  if state.active then s
  else if state.queue = [] then s
  else if s.activeSessionCount ≥ s.maxConcurrentSessions then s
  else
    match state.queue with
    | [] => s
    | entry :: rest =>
        -- wait-warning side channel dropped (uses entry.warnAfterMs and
        -- the clock only for logging/onWait, no scheduler-state effect)
        let _ := entry
        { s with
          sessionLanes := setA s.sessionLanes sessionKey
            { state with queue := rest, active := true },
          activeSessionCount := s.activeSessionCount + 1 }

/-- drainWaitingSessions: scan the session-lane map in insertion order,
draining idle lanes with pending work, stopping once the global cap is
reached (the break sits after a drain call).  The key list is the
snapshot the Map iterator walks; drains mutate lane states but never
add or remove keys. -/
def drainWaitingLoop (s : St) : List String → St
  | [] => s
  | k :: ks =>
      match lookupA s.sessionLanes k with
      | none => drainWaitingLoop s ks
      | some state =>
          if ¬state.active ∧ state.queue ≠ [] then
            let s2 := drainSessionLane s k
            if s2.activeSessionCount ≥ s2.maxConcurrentSessions then s2
            else drainWaitingLoop s2 ks
          else drainWaitingLoop s ks

/-- drainWaitingSessions. -/
def drainWaitingSessions (s : St) : St :=
  if s.activeSessionCount ≥ s.maxConcurrentSessions then s
  else drainWaitingLoop s (s.sessionLanes.map Prod.fst)

/-- setMaxConcurrentSessions. -/
def setMaxConcurrentSessions (s : St) (m : Nat) : St :=
  let previous := s.maxConcurrentSessions
  let s := { s with maxConcurrentSessions := max 1 m }
  if s.maxConcurrentSessions > previous then drainWaitingSessions s else s

/-- Priority insertion of enqueueSessionTask: place the new entry before
the first queued entry whose priority is strictly greater (numerically),
else append. -/
def insertByPriority (queue : List QueueEntry) (entry : QueueEntry) :
    List QueueEntry :=
  match queue with
  | [] => [entry]
  | q :: rest =>
      if q.priority > entry.priority then entry :: q :: rest
      else q :: insertByPriority rest entry

/-- The QueueEntry built by enqueueSessionTask. -/
def sessionEntry (clock : Nat) (sessionKey : String) (pid : Nat)
    (warnAfterMs : Nat) (priority : Nat) (onWait : Option Nat) : QueueEntry :=
  { pid := pid, enqueuedAt := clock, warnAfterMs := warnAfterMs,
    priority := priority, sessionKey := some sessionKey, onWait := onWait }

/-- enqueueSessionTask.  An empty (falsy) session key falls back to the
main named lane with the same options. -/
def enqueueSessionTask (s : St) (sessionKey : String) (pid : Nat)
    (warnAfterMs : Nat) (priority : Nat) (onWait : Option Nat) : St :=
  if sessionKey = "" then
    enqueueCommandInLane s mainLane pid warnAfterMs priority onWait
  else
    let (state, s) := getSessionLaneState s sessionKey
    let entry : QueueEntry :=
      sessionEntry s.clock sessionKey pid warnAfterMs priority onWait
    let s := { s with
      sessionLanes := setA s.sessionLanes sessionKey
        { state with queue := insertByPriority state.queue entry } }
    drainSessionLane s sessionKey

/-- Settlement of a session task (the async continuation in
drainSessionLane): clear active, decrement the global count, re-drain
this session, then scan for waiting sessions.  A no-op unless the
session is actually active (a settlement event always corresponds to a
launched task). -/
def completeSessionTask (s : St) (sessionKey : String) : St :=
  match lookupA s.sessionLanes sessionKey with
  | none => s
  | some state =>
      if state.active then
        let s := { s with
          sessionLanes := setA s.sessionLanes sessionKey { state with active := false },
          activeSessionCount := s.activeSessionCount - 1 }
        let s := drainSessionLane s sessionKey
        drainWaitingSessions s
      else s

/-- Events of the queue module. -/
inductive Ev where
  | enqSession (sessionKey : String) (pid warnAfterMs priority : Nat)
  | completeSession (sessionKey : String)
  | enqLane (lane : String) (pid warnAfterMs priority : Nat)
  | completeLane (lane : String) (taskId : Nat)
  | setMaxSessions (m : Nat)
  | setLaneConcurrency (lane : String) (m : Nat)
  | tick (dt : Nat)
deriving Repr

/-- One event step. -/
def step (s : St) : Ev → St
  | .enqSession k pid w p => enqueueSessionTask s k pid w p none
  | .completeSession k => completeSessionTask s k
  | .enqLane l pid w p => enqueueCommandInLane s l pid w p none
  | .completeLane l t => completeLaneTask s l t
  | .setMaxSessions m => setMaxConcurrentSessions s m
  | .setLaneConcurrency l m => setCommandLaneConcurrency s l m
  | .tick dt => { s with clock := s.clock + dt }

/-- Run a list of events. -/
def run (s : St) : List Ev → St
  | [] => s
  | e :: rest => run (step s e) rest

/-- Number of session lanes currently marked active. -/
def numActiveSessions (s : St) : Nat :=
  (s.sessionLanes.filter (fun kw => kw.2.active)).length

/-- getActiveSessionCount. -/
def getActiveSessionCount (s : St) : Nat := s.activeSessionCount

/-- Operations on one lane's priority buckets, for stating the bucket
discipline over arbitrary operation sequences. -/
inductive BOp where
  | enq (e : QueueEntry)
  | deq
deriving Repr

/-- Run bucket operations from a bucket list; returns the final buckets
and the dequeued entries in dequeue order (a dequeue on all-empty
buckets yields nothing, as in the drain loop guard). -/
def runBucketOps (bs : List (List QueueEntry)) :
    List BOp → List (List QueueEntry) × List QueueEntry
  | [] => (bs, [])
  | .enq e :: ops => runBucketOps (enqBuckets bs e) ops
  | .deq :: ops =>
      match dequeueBuckets bs with
      | some (e, bs2) =>
          let (bs3, out) := runBucketOps bs2 ops
          (bs3, e :: out)
      | none => runBucketOps bs ops

/-- The entries enqueued by an operation list, in order. -/
def enqueuedOf : List BOp → List QueueEntry
  | [] => []
  | .enq e :: ops => e :: enqueuedOf ops
  | .deq :: ops => enqueuedOf ops

/-- Bucket membership predicate: the bucket an entry is routed to in a
three-bucket lane. -/
def routedTo (i : Nat) (e : QueueEntry) : Bool :=
  bucketIndexFor 3 e.priority = i

/-- A concrete entry for evaluating the statements on small inputs. -/
def sampleEntry (pid priority : Nat) : QueueEntry :=
  { pid := pid, enqueuedAt := 0, warnAfterMs := 2000, priority := priority }

/-- Bucket purity: every entry sits in the bucket its priority routes
to. -/
def PureBuckets (bs : List (List QueueEntry)) : Prop :=
  ∀ i (e : QueueEntry), e ∈ bs.getD i [] → routedTo i e = true

/-- The session-scheduler invariant: distinct lane keys (a Map),
activeSessionCount consistent with the lanes marked active, and the
count within the global cap. -/
def QInv (s : St) : Prop :=
  (s.sessionLanes.map Prod.fst).Nodup
  ∧ s.activeSessionCount = numActiveSessions s
  ∧ s.activeSessionCount ≤ s.maxConcurrentSessions

/-- An event never lowers the cap below the currently active count
(setMaxConcurrentSessions can; every other event trivially cannot). -/
def capOk (s : St) : Ev → Prop
  | Ev.setMaxSessions m => s.activeSessionCount ≤ max 1 m
  | _ => True

/-- States reachable from the initial state without ever lowering the
cap below the active count. -/
inductive ReachableNC : St → Prop
  | init : ReachableNC state0
  | next (s : St) (e : Ev) : ReachableNC s → capOk s e → ReachableNC (step s e)

end CmdQueue

namespace TimerMgr

open SpecUtil

/-- Timer type tag. -/
inductive TimerType where
  | timeout
  | interval
deriving Repr, DecidableEq

/-- The synthetic timer id.  The source renders it as the string
label-counter with a per-module increasing counter; since the counter's
decimal digits contain no dash the rendering is injective, so the
(label, counter) pair serves as the id directly. -/
structure TimerId where
  label : String
  counter : Nat
deriving Repr, DecidableEq

/-- TimerEntry (timer-manager.ts); the runtime handle and the wrapped
callback are implicit in the firing events. -/
structure TimerEntry where
  id : TimerId
  type : TimerType
  label : String
  createdAt : Nat
  delayMs : Nat
deriving Repr, DecidableEq

/-- Module state: the activeTimers map, the id counter and the metric
counters. -/
structure St where
  nextId : Nat
  activeTimers : List (TimerId × TimerEntry)
  totalCreated : Nat
  totalFired : Nat
  totalCancelled : Nat
deriving Repr, DecidableEq

/-- Initial module state (nextId = 1). -/
def state0 : St :=
  { nextId := 1, activeTimers := [], totalCreated := 0, totalFired := 0,
    totalCancelled := 0 }

/-- generateId. -/
def generateId (s : St) (label : String) : TimerId × St :=
  ({ label := label, counter := s.nextId }, { s with nextId := s.nextId + 1 })

/-- managedSetTimeout: register the entry and bump totalCreated.  The
wrapped callback (fire event below) removes the entry and bumps
totalFired before running the user callback. -/
def managedSetTimeout (s : St) (delayMs : Nat) (label : String) (now : Nat) :
    TimerId × St :=
  let (id, s) := generateId s label
  let entry : TimerEntry :=
    { id := id, type := .timeout, label := label, createdAt := now,
      delayMs := delayMs }
  let s2 := { s with
    activeTimers := setA s.activeTimers id entry,
    totalCreated := s.totalCreated + 1 }
  (id, s2)

/-- managedSetInterval: register the entry and bump totalCreated.  The
wrapped callback (fire event below) bumps totalFired on every tick but
leaves the entry registered. -/
def managedSetInterval (s : St) (intervalMs : Nat) (label : String) (now : Nat) :
    TimerId × St :=
  let (id, s) := generateId s label
  let entry : TimerEntry :=
    { id := id, type := .interval, label := label, createdAt := now,
      delayMs := intervalMs }
  let s2 := { s with
    activeTimers := setA s.activeTimers id entry,
    totalCreated := s.totalCreated + 1 }
  (id, s2)

/-- The runtime firing a timer's wrapped callback.  Only a registered
handle can fire (clearing a timer cancels its handle, and a fired
timeout's handle never fires again); an unknown id is a no-op event. -/
def fireTimer (s : St) (id : TimerId) : St :=
  match lookupA s.activeTimers id with
  | none => s
  | some entry =>
      match entry.type with
      | .timeout =>
          { s with
            activeTimers := eraseA s.activeTimers id,
            totalFired := s.totalFired + 1 }
      | .interval => { s with totalFired := s.totalFired + 1 }

/-- clearManagedTimer: returns whether a timer was cancelled. -/
def clearManagedTimer (s : St) (id : TimerId) : Bool × St :=
  match lookupA s.activeTimers id with
  | none => (false, s)
  | some _ =>
      let s2 := { s with
        activeTimers := eraseA s.activeTimers id,
        totalCancelled := s.totalCancelled + 1 }
      (true, s2)

/-- clearAllTimers: returns the count cleared. -/
def clearAllTimers (s : St) : Nat × St :=
  let count := s.activeTimers.length
  let s2 := { s with
    activeTimers := [],
    totalCancelled := s.totalCancelled + count }
  (count, s2)

/-- clearTimersByLabel; the regex test is a Boolean predicate on labels. -/
def clearTimersByLabel (s : St) (pattern : String → Bool) : Nat × St :=
  let count := (s.activeTimers.filter (fun kv => pattern kv.2.label)).length
  let s2 :=
    { s with
      activeTimers := s.activeTimers.filter (fun kv => !(pattern kv.2.label)),
      totalCancelled := s.totalCancelled + count }
  (count, s2)

/-- Timer statistics as returned by getTimerStats. -/
structure Stats where
  active : Nat
  timeouts : Nat
  intervals : Nat
  totalCreated : Nat
  totalFired : Nat
  totalCancelled : Nat
deriving Repr, DecidableEq

/-- getTimerStats. -/
def getTimerStats (s : St) : Stats :=
  { active := s.activeTimers.length,
    timeouts := (s.activeTimers.filter (fun kv => kv.2.type = .timeout)).length,
    intervals := (s.activeTimers.filter (fun kv => kv.2.type = .interval)).length,
    totalCreated := s.totalCreated,
    totalFired := s.totalFired,
    totalCancelled := s.totalCancelled }

/-- Events of the timer registry. -/
inductive Ev where
  | createTimeout (delayMs : Nat) (label : String) (now : Nat)
  | createInterval (intervalMs : Nat) (label : String) (now : Nat)
  | fire (id : TimerId)
  | clear (id : TimerId)
  | clearAll
  | clearByLabel (pattern : String → Bool)

/-- One event step. -/
def step (s : St) : Ev → St
  | .createTimeout d l now => (managedSetTimeout s d l now).2
  | .createInterval d l now => (managedSetInterval s d l now).2
  | .fire id => fireTimer s id
  | .clear id => (clearManagedTimer s id).2
  | .clearAll => (clearAllTimers s).2
  | .clearByLabel p => (clearTimersByLabel s p).2

/-- Run a list of events. -/
def run (s : St) : List Ev → St
  | [] => s
  | e :: rest => run (step s e) rest

/-- Whether an event is the firing of a registered timeout in state s
(the firings that remove an entry). -/
def isTimeoutFire (s : St) : Ev → Bool
  | .fire id =>
      match lookupA s.activeTimers id with
      | some entry => entry.type = .timeout
      | none => false
  | _ => false

/-- Whether an event is a tick of a registered interval in state s. -/
def isIntervalFire (s : St) : Ev → Bool
  | .fire id =>
      match lookupA s.activeTimers id with
      | some entry => entry.type = .interval
      | none => false
  | _ => false

/-- Number of timeout firings along a trace. -/
def timeoutFires (s : St) : List Ev → Nat
  | [] => 0
  | e :: rest =>
      (if isTimeoutFire s e then 1 else 0) + timeoutFires (step s e) rest

/-- Number of interval ticks along a trace. -/
def intervalFires (s : St) : List Ev → Nat
  | [] => 0
  | e :: rest =>
      (if isIntervalFire s e then 1 else 0) + intervalFires (step s e) rest

/-- Id freshness: every registered timer was created with a counter
below the allocator, so freshly generated ids are new map keys. -/
def FreshIds (s : St) : Prop :=
  ∀ kv ∈ s.activeTimers, kv.1.counter < s.nextId

end TimerMgr

namespace Subagent

open SpecUtil

/-- Cleanup policy. -/
inductive Cleanup where
  | delete
  | keep
deriving Repr, DecidableEq

/-- SubagentRunOutcome. -/
inductive SubagentRunOutcome where
  | ok
  | error (msg : Option String)
  | timeout
deriving Repr, DecidableEq

/-- SubagentRunRecord (subagent-registry.ts).  The requesterOrigin
delivery context is opaque to the registry and kept as an optional
string tag. -/
structure SubagentRunRecord where
  runId : String
  childSessionKey : String
  requesterSessionKey : String
  requesterOrigin : Option String := none
  requesterDisplayKey : String
  task : String
  cleanup : Cleanup
  label : Option String := none
  createdAt : Nat
  startedAt : Option Nat := none
  endedAt : Option Nat := none
  outcome : Option SubagentRunOutcome := none
  archiveAtMs : Option Nat := none
  cleanupCompletedAt : Option Nat := none
  cleanupHandled : Bool := false
deriving Repr, DecidableEq

/-- Module state.  completionWaiters (runId to set of callbacks, in
insertion order) is flattened to a pending-waiter list of
(promise id, runId); resolved waiter promises are logged with their
value.  Disk persistence is a write-only side effect (failures are
swallowed, in-memory state wins) and is dropped. -/
structure St where
  subagentRuns : List (String × SubagentRunRecord)
  waiters : List (Nat × String)
  waiterResolved : List (Nat × Option SubagentRunRecord)
  nextPid : Nat
  emittedCompletions : List (String × String)
deriving Repr, DecidableEq

/-- Initial module state. -/
def state0 : St :=
  { subagentRuns := [], waiters := [], waiterResolved := [], nextPid := 0,
    emittedCompletions := [] }

/-- JavaScript truthiness of the endedAt field (0 and undefined are
falsy). -/
def endedAtTruthy : Option Nat → Bool
  | some n => n ≠ 0
  | none => false

/-- notifyCompletionWaiters: call every waiter callback registered for
the run with the (shared) record, then drop the waiter set. -/
def notifyCompletionWaiters (s : St) (runId : String)
    (record : SubagentRunRecord) : St :=
  let affected := s.waiters.filter (fun w => w.2 = runId)
  { s with
    waiters := s.waiters.filter (fun w => w.2 ≠ runId),
    waiterResolved :=
      s.waiterResolved ++ affected.map (fun w => (w.1, some record)) }

/-- emitSubagentCompletionEvent: a synthetic lifecycle event targeting
the parent session key (recorded; its payload carries the record). -/
def emitSubagentCompletionEvent (s : St) (record : SubagentRunRecord) : St :=
  { s with emittedCompletions :=
      s.emittedCompletions ++ [(record.runId, record.requesterSessionKey)] }

/-- beginSubagentCleanup: claim the cleanup phase at most once; returns
whether this caller claimed it. -/
def beginSubagentCleanup (s : St) (runId : String) : Bool × St :=
  match lookupA s.subagentRuns runId with
  | none => (false, s)
  | some entry =>
      if entry.cleanupCompletedAt.isSome then (false, s)
      else if entry.cleanupHandled then (false, s)
      else
        let entry2 := { entry with cleanupHandled := true }
        (true, { s with subagentRuns := setA s.subagentRuns runId entry2 })

/-- finalizeSubagentCleanup (the continuation of the announce flow). -/
def finalizeSubagentCleanup (s : St) (runId : String) (cleanup : Cleanup)
    (didAnnounce : Bool) (now : Nat) : St :=
  match lookupA s.subagentRuns runId with
  | none => s
  | some entry =>
      if ¬didAnnounce then
        let entry2 := { entry with cleanupHandled := false }
        { s with subagentRuns := setA s.subagentRuns runId entry2 }
      else
        match cleanup with
        | .delete => { s with subagentRuns := eraseA s.subagentRuns runId }
        | .keep =>
            let entry2 := { entry with cleanupCompletedAt := some now }
            { s with subagentRuns := setA s.subagentRuns runId entry2 }

/-- An agent event as seen by the registry listener.  Fields mirror the
evt.data payload the listener inspects; absent fields are none. -/
structure LifecycleEvt where
  runId : String
  stream : String
  phase : String
  startedAtData : Option Nat := none
  endedAtData : Option Nat := none
  errorMsg : Option String := none
  aborted : Bool := false
deriving Repr, DecidableEq

/-- The record produced by the end/error branch of the listener from a
registered entry and the event payload: endedAt from the event (or now)
and the outcome computed from phase and the aborted flag. -/
def endedRecord (entry : SubagentRunRecord) (evt : LifecycleEvt) (now : Nat) :
    SubagentRunRecord :=
  { entry with
    endedAt := some (evt.endedAtData.getD now),
    outcome := some
      (if evt.phase = "error" then SubagentRunOutcome.error evt.errorMsg
       else if evt.aborted then SubagentRunOutcome.timeout
       else SubagentRunOutcome.ok) }

/-- The body of the listener installed by ensureListener, processing one
agent event; now stands for Date.now().  On end/error it assigns
endedAt (unconditionally), computes the outcome, notifies waiters,
emits the synthetic completion event and claims cleanup (the announce
flow itself completes later via finalizeSubagentCleanup). -/
def deliverLifecycle (s : St) (evt : LifecycleEvt) (now : Nat) : St :=
  if evt.stream ≠ "lifecycle" then s
  else
    match lookupA s.subagentRuns evt.runId with
    | none => s
    | some entry =>
        if evt.phase = "start" then
          match evt.startedAtData with
          | some t =>
              if t ≠ 0 then
                let entry2 := { entry with startedAt := some t }
                { s with subagentRuns := setA s.subagentRuns evt.runId entry2 }
              else s
          | none => s
        else if evt.phase = "end" ∨ evt.phase = "error" then
          let entry2 := endedRecord entry evt now
          let s := { s with
            subagentRuns := setA s.subagentRuns evt.runId entry2 }
          let s := notifyCompletionWaiters s evt.runId entry2
          let s := emitSubagentCompletionEvent s entry2
          -- beginSubagentCleanup's Boolean decides whether the announce
          -- flow is launched; that flow settles later as a
          -- finalizeCleanup event
          (beginSubagentCleanup s evt.runId).2
        else s

/-- registerSubagentRun.  archiveAfterMs comes from configuration
(resolveArchiveAfterMs); none when archival is disabled. -/
def registerSubagentRun (s : St) (runId childSessionKey requesterSessionKey
    requesterDisplayKey task : String) (cleanup : Cleanup)
    (label : Option String) (archiveAfterMs : Option Nat) (now : Nat) : St :=
  let record : SubagentRunRecord :=
    { runId := runId, childSessionKey := childSessionKey,
      requesterSessionKey := requesterSessionKey,
      requesterDisplayKey := requesterDisplayKey, task := task,
      cleanup := cleanup, label := label, createdAt := now,
      startedAt := some now,
      archiveAtMs := archiveAfterMs.map (fun d => now + d),
      cleanupHandled := false }
  { s with subagentRuns := setA s.subagentRuns runId record }

/-- The result of a waitForSubagentRun call: the allocated promise id
and the new state.  Branch order follows the source: an entry with a
truthy endedAt resolves immediately with the record; an unknown runId
resolves immediately with null; otherwise the promise id joins the
waiter set and a timeout timer is armed. -/
def waitForSubagentRun (s : St) (runId : String) : Nat × St :=
  let pid := s.nextPid
  let s := { s with nextPid := s.nextPid + 1 }
  match lookupA s.subagentRuns runId with
  | some entry =>
      if endedAtTruthy entry.endedAt then
        (pid, { s with waiterResolved := s.waiterResolved ++ [(pid, some entry)] })
      else
        (pid, { s with waiters := s.waiters ++ [(pid, runId)] })
  | none =>
      (pid, { s with waiterResolved := s.waiterResolved ++ [(pid, none)] })

/-- The timeout timer of a waiter firing: finish(null) runs unless the
waiter already settled (in which case its timer was cleared and the
settled guard holds, so the event is a no-op). -/
def waitTimeout (s : St) (pid : Nat) : St :=
  if s.waiters.any (fun w => w.1 = pid) then
    { s with
      waiters := s.waiters.filter (fun w => w.1 ≠ pid),
      waiterResolved := s.waiterResolved ++ [(pid, none)] }
  else s

/-- releaseSubagentRun. -/
def releaseSubagentRun (s : St) (runId : String) : St :=
  { s with subagentRuns := eraseA s.subagentRuns runId }

/-- sweepSubagentRuns: drop every record whose archiveAtMs has passed
(the child-session deletion is an external best-effort call). -/
def sweepSubagentRuns (s : St) (now : Nat) : St :=
  let keep := fun (kv : String × SubagentRunRecord) =>
    match kv.2.archiveAtMs with
    | some t => ¬(t ≤ now)
    | none => true
  { s with subagentRuns := s.subagentRuns.filter keep }

/-- getSubagentRun. -/
def getSubagentRun (s : St) (runId : String) : Option SubagentRunRecord :=
  lookupA s.subagentRuns runId

/-- Events of the registry. -/
inductive Ev where
  | register (runId childSessionKey requesterSessionKey requesterDisplayKey
      task : String) (cleanup : Cleanup) (label : Option String)
      (archiveAfterMs : Option Nat) (now : Nat)
  | lifecycle (evt : LifecycleEvt) (now : Nat)
  | wait (runId : String)
  | timeoutFire (pid : Nat)
  | finalizeCleanup (runId : String) (cleanup : Cleanup) (didAnnounce : Bool)
      (now : Nat)
  | release (runId : String)
  | sweep (now : Nat)
deriving Repr

/-- One event step. -/
def step (s : St) : Ev → St
  | .register r c q d t cl l a now => registerSubagentRun s r c q d t cl l a now
  | .lifecycle evt now => deliverLifecycle s evt now
  | .wait runId => (waitForSubagentRun s runId).2
  | .timeoutFire pid => waitTimeout s pid
  | .finalizeCleanup r cl d now => finalizeSubagentCleanup s r cl d now
  | .release r => releaseSubagentRun s r
  | .sweep now => sweepSubagentRuns s now

/-- Run a list of events. -/
def run (s : St) : List Ev → St
  | [] => s
  | e :: rest => run (step s e) rest

/-- Whether processing the event in state s executes the assignment
entry.endedAt = ... for the given run (the end/error branch of the
listener, for a registered run). -/
def assignsEndedAt (s : St) (runId : String) : Ev → Bool
  | .lifecycle evt _ =>
      evt.runId = runId ∧ evt.stream = "lifecycle" ∧
      (evt.phase = "end" ∨ evt.phase = "error") ∧
      (lookupA s.subagentRuns runId).isSome
  | _ => false

/-- Number of steps of a trace that assign endedAt for a run. -/
def countEndedAtAssigns (s : St) (runId : String) : List Ev → Nat
  | [] => 0
  | e :: rest =>
      (if assignsEndedAt s runId e then 1 else 0) +
        countEndedAtAssigns (step s e) runId rest

/-- Number of lifecycle end/error events for a run in a trace (counted
on the event stream alone, whether or not the run is registered). -/
def countEndErrorEvents (runId : String) : List Ev → Nat
  | [] => 0
  | e :: rest =>
      (match e with
        | .lifecycle evt _ =>
            if evt.runId = runId ∧ evt.stream = "lifecycle" ∧
                (evt.phase = "end" ∨ evt.phase = "error") then 1 else 0
        | _ => 0) + countEndErrorEvents runId rest

/-- Resolved value of a waiter promise, if settled. -/
def waiterValue (s : St) (pid : Nat) : Option (Option SubagentRunRecord) :=
  lookupA s.waiterResolved pid

/-- A run registered and then ended by an event that carries the
timestamp endedAt = 0 (falsy in JavaScript). -/
def zeroEndTrace : List Ev :=
  [Ev.register "r1" "child" "parent" "disp" "task" Cleanup.keep none none 5,
   Ev.lifecycle
     { runId := "r1", stream := "lifecycle", phase := "end",
       endedAtData := some 0 } 7]

/-- A run registered and then ended once, with a real timestamp. -/
def singleEndTrace : List Ev :=
  [Ev.register "r1" "child" "parent" "disp" "task" Cleanup.keep none none 5,
   Ev.lifecycle
     { runId := "r1", stream := "lifecycle", phase := "end",
       endedAtData := some 10 } 10]

/-- The same run ended twice (a duplicate end event). -/
def doubleEndTrace : List Ev :=
  singleEndTrace ++
    [Ev.lifecycle
      { runId := "r1", stream := "lifecycle", phase := "end",
        endedAtData := some 11 } 11]

end Subagent

namespace AuthPreload

open SpecUtil

/-- ResolvedProviderAuth (model-auth.ts): the credential blob resolved
for a provider; opaque to the cache apart from its source tag, so it is
abbreviated to the fields the cache logic touches. -/
structure ResolvedProviderAuth where
  apiKey : Option String := none
  source : String
deriving Repr, DecidableEq

/-- CacheEntry (auth-preload.ts). -/
structure CacheEntry where
  auth : ResolvedProviderAuth
  provider : String
  profileId : Option String
  resolvedAt : Nat
  expiresAt : Nat
deriving Repr, DecidableEq

/-- AUTH_CACHE_TTL_MS. -/
def AUTH_CACHE_TTL_MS : Nat := 5 * 60 * 1000

/-- AUTH_CACHE_REFRESH_AHEAD_MS. -/
def AUTH_CACHE_REFRESH_AHEAD_MS : Nat := 60 * 1000

/-- AUTH_CACHE_MAX_SIZE. -/
def AUTH_CACHE_MAX_SIZE : Nat := 50

/-- Module state: the LRU cache map, its access-order list and the
per-key in-flight background refresh set. -/
structure St where
  authCache : List (String × CacheEntry)
  cacheAccessOrder : List String
  refreshInProgress : List String
deriving Repr, DecidableEq

/-- Initial module state. -/
def state0 : St :=
  { authCache := [], cacheAccessOrder := [], refreshInProgress := [] }

/-- Modelled from the spec: normalizeProviderId lives in
model-selection.ts, which is outside the included sources; §4.D of the
spec only requires a normalization of the provider id, modelled here as
trimming and lowercasing. -/
def normalizeProviderId (provider : String) : String :=
  lowerString (trimString provider)

/-- buildCacheKey. -/
def buildCacheKey (provider : String) (profileId : Option String) : String :=
  let normalizedProvider := normalizeProviderId provider
  match profileId with
  | some p => normalizedProvider ++ ":" ++ p
  | none => normalizedProvider

/-- The eviction loop of evictOldest: while size ≥ maxSize and the
access-order list is non-empty, shift the oldest key and delete it. -/
def evictLoop : Nat → St → St
  | 0, s => s
  | fuel + 1, s =>
      if s.authCache.length ≥ AUTH_CACHE_MAX_SIZE then
        match s.cacheAccessOrder with
        | [] => s
        | oldest :: rest =>
            evictLoop fuel
              { s with cacheAccessOrder := rest,
                       authCache := eraseA s.authCache oldest }
      else s

/-- evictOldest (each iteration shortens cacheAccessOrder, so its length
bounds the loop). -/
def evictOldest (s : St) : St :=
  evictLoop s.cacheAccessOrder.length s

/-- touchCacheEntry: move (or insert) the key to the most-recent end. -/
def touchCacheEntry (s : St) (key : String) : St :=
  { s with cacheAccessOrder := s.cacheAccessOrder.erase key ++ [key] }

/-- setCacheEntry. -/
def setCacheEntry (s : St) (key : String) (entry : CacheEntry) : St :=
  let s := evictOldest s
  let s := { s with authCache := setA s.authCache key entry }
  touchCacheEntry s key

/-- getCacheEntry: lookup plus LRU touch on hit. -/
def getCacheEntry (s : St) (key : String) : Option CacheEntry × St :=
  match lookupA s.authCache key with
  | some entry => (some entry, touchCacheEntry s key)
  | none => (none, s)

/-- scheduleBackgroundRefresh: record at most one in-flight refresh per
key; the refresh body itself runs asynchronously (as a force preload)
and clears the flag when it settles. -/
def scheduleBackgroundRefresh (s : St) (provider : String)
    (profileId : Option String) : St :=
  let key := buildCacheKey provider profileId
  if key ∈ s.refreshInProgress then s
  else { s with refreshInProgress := s.refreshInProgress ++ [key] }

/-- getCachedAuth: return the cached credential while now < expiresAt
(deleting an expired entry), scheduling a background refresh inside the
refresh-ahead window.  In the source the comparison now ≥ expiresAt −
refreshAhead is on JS numbers; for expiresAt < refreshAhead the right
side is negative there and truncated to 0 here, and both comparisons
are then vacuously true, so Nat subtraction is faithful. -/
def getCachedAuth (s : St) (provider : String) (profileId : Option String)
    (now : Nat) : Option ResolvedProviderAuth × St :=
  let key := buildCacheKey provider profileId
  match getCacheEntry s key with
  | (none, s) => (none, s)
  | (some entry, s) =>
      if now ≥ entry.expiresAt then
        (none, { s with authCache := eraseA s.authCache key })
      else
        let s :=
          if now ≥ entry.expiresAt - AUTH_CACHE_REFRESH_AHEAD_MS then
            scheduleBackgroundRefresh s provider profileId
          else s
        (some entry.auth, s)

/-- preloadAuth.  The resolver argument stands for
resolveApiKeyForProvider (an external collaborator; none = it threw).
tCheck is Date.now() at the cache check, tStore is Date.now() after the
resolution await.  Returns the credential (none when the resolver
threw), whether the resolver was invoked, and the new state. -/
def preloadAuth (resolver : String → Option String → Option ResolvedProviderAuth)
    (provider : String) (profileId : Option String) (force : Bool)
    (tCheck tStore : Nat) (s : St) :
    Option ResolvedProviderAuth × Bool × St :=
  let key := buildCacheKey provider profileId
  let resolvePath : St → Option ResolvedProviderAuth × Bool × St := fun s =>
    match resolver provider profileId with
    | none => (none, true, s)
    | some auth =>
        let entry : CacheEntry :=
          { auth := auth, provider := provider, profileId := profileId,
            resolvedAt := tStore, expiresAt := tStore + AUTH_CACHE_TTL_MS }
        (some auth, true, setCacheEntry s key entry)
  if ¬force then
    match getCachedAuth s provider profileId tCheck with
    | (some cached, s) => (some cached, false, s)
    | (none, s) => resolvePath s
  else resolvePath s

/-- invalidateAuth. -/
def invalidateAuth (s : St) (provider : String) (profileId : Option String) : St :=
  let key := buildCacheKey provider profileId
  { s with authCache := eraseA s.authCache key }

/-- clearAuthCache. -/
def clearAuthCache (_s : St) : St := state0

/-- getAuthCacheStats. -/
def getAuthCacheStats (s : St) : Nat × Nat × Nat :=
  (s.authCache.length, AUTH_CACHE_MAX_SIZE, s.refreshInProgress.length)

end AuthPreload

/-! ## Theorems -/

namespace SpecUtil

theorem lookupA_setA_self {α β : Type} [DecidableEq α]
    (l : List (α × β)) (k : α) (v : β) : lookupA (setA l k v) k = some v := by
  induction l with
  | nil => simp [setA, lookupA]
  | cons p rest ih =>
      by_cases h : p.1 = k
      · simp [setA, h, lookupA]
      · simp [setA, h, lookupA, ih]

theorem lookupA_setA_ne {α β : Type} [DecidableEq α]
    (l : List (α × β)) (k k2 : α) (v : β) (h : k2 ≠ k) :
    lookupA (setA l k v) k2 = lookupA l k2 := by
  induction l with
  | nil =>
      simp only [setA, lookupA]
      rw [if_neg (fun hh => h hh.symm)]
  | cons p rest ih =>
      obtain ⟨k1, v1⟩ := p
      by_cases hp : k1 = k
      · subst hp
        simp only [setA, if_pos rfl, lookupA]
        rw [if_neg (fun hh => h hh.symm), if_neg (fun hh => h hh.symm)]
      · simp only [setA, if_neg hp, lookupA]
        by_cases hq : k1 = k2 <;> simp [hq, ih]

theorem lookupA_eraseA_ne {α β : Type} [DecidableEq α]
    (l : List (α × β)) (k k2 : α) (h : k2 ≠ k) :
    lookupA (eraseA l k) k2 = lookupA l k2 := by
  induction l with
  | nil => simp [eraseA]
  | cons p rest ih =>
      obtain ⟨k1, v1⟩ := p
      by_cases hp : k1 = k
      · subst hp
        have he : eraseA ((k1, v1) :: rest) k1 = rest := by simp [eraseA]
        have hl : lookupA ((k1, v1) :: rest) k2 = lookupA rest k2 := by
          simp only [lookupA]
          rw [if_neg (fun hh => h hh.symm)]
        rw [he, hl]
      · simp only [eraseA, if_neg hp, lookupA]
        by_cases hq : k1 = k2 <;> simp [hq, ih]

theorem mem_eraseA {α β : Type} [DecidableEq α]
    (l : List (α × β)) (k : α) (q : α × β) (h : q ∈ eraseA l k) : q ∈ l := by
  induction l with
  | nil => simp [eraseA] at h
  | cons p rest ih =>
      obtain ⟨k1, v1⟩ := p
      by_cases hk : k1 = k
      · subst hk
        simp only [eraseA, if_pos rfl] at h
        exact List.mem_cons_of_mem _ h
      · simp only [eraseA, if_neg hk] at h
        rcases List.mem_cons.mp h with h | h
        · exact h ▸ List.mem_cons_self _ _
        · exact List.mem_cons_of_mem _ (ih h)

theorem mem_setA {α β : Type} [DecidableEq α]
    (l : List (α × β)) (k : α) (v : β) (q : α × β) (h : q ∈ setA l k v) :
    q = (k, v) ∨ q ∈ l := by
  induction l with
  | nil =>
      left
      simpa [setA] using h
  | cons p rest ih =>
      obtain ⟨k1, v1⟩ := p
      by_cases hk : k1 = k
      · subst hk
        simp only [setA, if_pos rfl] at h
        rcases List.mem_cons.mp h with h | h
        · exact Or.inl h
        · exact Or.inr (List.mem_cons_of_mem _ h)
      · simp only [setA, if_neg hk] at h
        rcases List.mem_cons.mp h with h | h
        · exact Or.inr (h ▸ List.mem_cons_self _ _)
        · rcases ih h with h | h
          · exact Or.inl h
          · exact Or.inr (List.mem_cons_of_mem _ h)

end SpecUtil

namespace CmdQueue

open SpecUtil

theorem getD_set_self {α : Type} (l : List α) (j : Nat) (v d : α)
    (h : j < l.length) : (l.set j v).getD j d = v := by
  induction l generalizing j with
  | nil => simp at h
  | cons a rest ih =>
      cases j with
      | zero => simp [List.set, List.getD]
      | succ j =>
          simp only [List.set, List.getD, List.getElem?_cons_succ]
          exact ih j (by simpa using h)

theorem getD_set_ne {α : Type} (l : List α) (i j : Nat) (v d : α)
    (h : i ≠ j) : (l.set j v).getD i d = l.getD i d := by
  induction l generalizing i j with
  | nil => simp [List.set]
  | cons a rest ih =>
      cases j with
      | zero =>
          cases i with
          | zero => exact absurd rfl h
          | succ i => simp [List.set, List.getD]
      | succ j =>
          cases i with
          | zero => simp [List.set, List.getD]
          | succ i =>
              simp only [List.set, List.getD, List.getElem?_cons_succ]
              exact ih i j (fun hh => h (hh ▸ rfl))

theorem dequeueBuckets_sound (bs : List (List QueueEntry)) (e : QueueEntry)
    (bs2 : List (List QueueEntry)) (h : dequeueBuckets bs = some (e, bs2)) :
    ∃ j t, j < bs.length ∧ (∀ k, k < j → bs.getD k [] = []) ∧
      bs.getD j [] = e :: t ∧ bs2 = bs.set j t := by
  induction bs generalizing bs2 with
  | nil => simp [dequeueBuckets] at h
  | cons bucket rest ih =>
      cases bucket with
      | cons e0 tail =>
          simp only [dequeueBuckets, Option.some.injEq, Prod.mk.injEq] at h
          refine ⟨0, tail, by simp, fun k hk => by omega, ?_, ?_⟩
          · simp [List.getD, h.1]
          · simp [List.set, h.2]
      | nil =>
          simp only [dequeueBuckets] at h
          cases hrec : dequeueBuckets rest with
          | none => rw [hrec] at h; simp at h
          | some p =>
              rw [hrec] at h
              obtain ⟨e2, rest2⟩ := p
              simp only [Option.some.injEq, Prod.mk.injEq] at h
              obtain ⟨he, hbs⟩ := h
              subst he
              obtain ⟨j, t, hj, hemp, hget, hset⟩ := ih rest2 hrec
              refine ⟨j + 1, t, by simpa using Nat.succ_lt_succ hj, ?_, ?_, ?_⟩
              · intro k hk
                cases k with
                | zero => simp [List.getD]
                | succ k =>
                    simp only [List.getD, List.getElem?_cons_succ]
                    exact hemp k (by omega)
              · simpa [List.getD] using hget
              · rw [← hbs, hset]; simp [List.set]

theorem enqBuckets_length (bs : List (List QueueEntry)) (e : QueueEntry) :
    (enqBuckets bs e).length = bs.length := by
  simp [enqBuckets]

theorem bucketIndexFor_lt_three (p : Nat) : bucketIndexFor 3 p < 3 := by
  simp only [bucketIndexFor]
  omega

theorem enqBuckets_getD (bs : List (List QueueEntry)) (e : QueueEntry)
    (i : Nat) (h3 : bs.length = 3) :
    (enqBuckets bs e).getD i [] =
      bs.getD i [] ++ (if routedTo i e then [e] else []) := by
  simp only [enqBuckets, h3]
  by_cases hi : i = bucketIndexFor 3 e.priority
  · subst hi
    rw [getD_set_self _ _ _ _ (h3 ▸ bucketIndexFor_lt_three e.priority)]
    simp [routedTo]
  · rw [getD_set_ne _ _ _ _ _ (fun hh => hi hh)]
    have : routedTo i e = false := by
      simp only [routedTo, decide_eq_false_iff_not]
      exact fun hh => hi hh.symm
    simp [this]

theorem pure_empty : PureBuckets createEmptyBuckets := by
  intro i e he
  simp only [createEmptyBuckets] at he
  rcases i with _ | _ | _ | i <;> simp [List.getD] at he

theorem runBucketOps_inv (ops : List BOp) :
    ∀ bs, bs.length = 3 → PureBuckets bs →
      (runBucketOps bs ops).1.length = 3 ∧
      PureBuckets (runBucketOps bs ops).1 ∧
      ∀ i, ((runBucketOps bs ops).2.filter (routedTo i)) ++
            (runBucketOps bs ops).1.getD i []
          = bs.getD i [] ++ (enqueuedOf ops).filter (routedTo i) := by
  induction ops with
  | nil =>
      intro bs h3 hp
      refine ⟨h3, hp, fun i => by simp [runBucketOps, enqueuedOf]⟩
  | cons op ops ih =>
      intro bs h3 hp
      cases op with
      | enq e =>
          have h3e : (enqBuckets bs e).length = 3 := by
            rw [enqBuckets_length]; exact h3
          have hpe : PureBuckets (enqBuckets bs e) := by
            intro i x hx
            rw [enqBuckets_getD bs e i h3] at hx
            rcases List.mem_append.mp hx with hx | hx
            · exact hp i x hx
            · by_cases hr : routedTo i e
              · simp [hr] at hx
                subst hx; exact hr
              · simp [hr] at hx
          obtain ⟨hl, hpu, heq⟩ := ih (enqBuckets bs e) h3e hpe
          refine ⟨by simpa [runBucketOps] using hl,
                  by simpa [runBucketOps] using hpu, ?_⟩
          intro i
          have := heq i
          simp only [runBucketOps]
          rw [this, enqBuckets_getD bs e i h3, enqueuedOf, List.filter_cons]
          by_cases hr : routedTo i e <;> simp [hr]
      | deq =>
          cases hdq : dequeueBuckets bs with
          | none =>
              obtain ⟨hl, hpu, heq⟩ := ih bs h3 hp
              refine ⟨by simpa [runBucketOps, hdq] using hl,
                      by simpa [runBucketOps, hdq] using hpu, ?_⟩
              intro i
              have := heq i
              simp only [runBucketOps, hdq]
              rw [this, enqueuedOf]
          | some p =>
              obtain ⟨e, bs2⟩ := p
              obtain ⟨j, t, hj, _, hget, hset⟩ := dequeueBuckets_sound bs e bs2 hdq
              have h3b : bs2.length = 3 := by rw [hset, List.length_set]; exact h3
              have hje : e ∈ bs.getD j [] := by rw [hget]; exact List.mem_cons_self e t
              have hre : routedTo j e = true := hp j e hje
              have hpb : PureBuckets bs2 := by
                intro i x hx
                by_cases hij : i = j
                · subst hij
                  rw [hset, getD_set_self _ _ _ _ (h3 ▸ hj)] at hx
                  exact hp i x (by rw [hget]; exact List.mem_cons_of_mem e hx)
                · rw [hset, getD_set_ne _ _ _ _ _ hij] at hx
                  exact hp i x hx
              obtain ⟨hl, hpu, heq⟩ := ih bs2 h3b hpb
              have hrun : runBucketOps bs (BOp.deq :: ops) =
                  ((runBucketOps bs2 ops).1, e :: (runBucketOps bs2 ops).2) := by
                simp [runBucketOps, hdq]
              refine ⟨by rw [hrun]; exact hl, by rw [hrun]; exact hpu, ?_⟩
              intro i
              rw [hrun]
              simp only [enqueuedOf, List.filter_cons]
              by_cases hij : i = j
              · subst hij
                have hgi : bs2.getD i [] = t := by
                  rw [hset]; exact getD_set_self _ _ _ _ (h3 ▸ hj)
                have hq := heq i
                rw [hgi] at hq
                simp only [hre, if_pos, List.cons_append]
                rw [hq, hget]
                simp
              · have hri : routedTo i e = false := by
                  simp only [routedTo, decide_eq_false_iff_not]
                  intro hh
                  apply hij
                  have hj2 : bucketIndexFor 3 e.priority = j := by
                    simpa [routedTo] using hre
                  omega
                have hgi : bs2.getD i [] = bs.getD i [] := by
                  rw [hset]; exact getD_set_ne _ _ _ _ _ hij
                have hq := heq i
                rw [hgi] at hq
                simp only [hri]
                simpa using hq

/-- C5: for every named lane and every sequence of enqueues and
dequeues, a dequeue returns the first (oldest-enqueued) entry of the
lowest-numbered non-empty priority bucket — every bucket of smaller
index is empty at that point — and, within each bucket, dequeue order
equals enqueue order: over any operation sequence from the empty
buckets, the dequeued entries routed to bucket i followed by the
entries still queued in bucket i are exactly the entries enqueued into
bucket i, in enqueue order. -/
theorem spec_C5_priority_bucket_fifo :
    (∀ (bs : List (List QueueEntry)) (e : QueueEntry)
        (bs2 : List (List QueueEntry)),
        dequeueBuckets bs = some (e, bs2) →
        ∃ j t, j < bs.length ∧ (∀ k, k < j → bs.getD k [] = []) ∧
          bs.getD j [] = e :: t ∧ bs2 = bs.set j t)
    ∧ (∀ (ops : List BOp) (i : Nat),
        ((runBucketOps createEmptyBuckets ops).2.filter (routedTo i)) ++
            (runBucketOps createEmptyBuckets ops).1.getD i []
          = (enqueuedOf ops).filter (routedTo i)) := by
  constructor
  · exact dequeueBuckets_sound
  · intro ops i
    have h := (runBucketOps_inv ops createEmptyBuckets (by rfl) pure_empty).2.2 i
    rw [h]
    rcases i with _ | _ | _ | i <;> simp [createEmptyBuckets, List.getD]

/-- Witness: the bucket discipline evaluated at concrete inputs — a
dequeue from buckets with only the Normal bucket occupied, and a
concrete enqueue/dequeue trace. -/
theorem spec_C5_priority_bucket_fifo_witness :
    (∃ j t,
      j < ([[], [sampleEntry 1 1], []] : List (List QueueEntry)).length ∧
      (∀ k, k < j →
        ([[], [sampleEntry 1 1], []] : List (List QueueEntry)).getD k [] = []) ∧
      ([[], [sampleEntry 1 1], []] : List (List QueueEntry)).getD j []
        = sampleEntry 1 1 :: t ∧
      ([[], [], []] : List (List QueueEntry))
        = ([[], [sampleEntry 1 1], []] : List (List QueueEntry)).set j t)
    ∧ ((runBucketOps createEmptyBuckets
          [BOp.enq (sampleEntry 1 1), BOp.enq (sampleEntry 2 0),
           BOp.deq]).2.filter (routedTo 0)) ++
        (runBucketOps createEmptyBuckets
          [BOp.enq (sampleEntry 1 1), BOp.enq (sampleEntry 2 0),
           BOp.deq]).1.getD 0 []
      = (enqueuedOf
          [BOp.enq (sampleEntry 1 1), BOp.enq (sampleEntry 2 0),
           BOp.deq]).filter (routedTo 0) :=
  ⟨spec_C5_priority_bucket_fifo.1 [[], [sampleEntry 1 1], []]
      (sampleEntry 1 1) [[], [], []] rfl,
   spec_C5_priority_bucket_fifo.2
      [BOp.enq (sampleEntry 1 1), BOp.enq (sampleEntry 2 0), BOp.deq] 0⟩

/-- C6: a session-lane enqueue inserts the new entry immediately before
the first queued entry of strictly greater numeric priority value
(i.e. strictly lower scheduling priority): the queue splits as the
maximal prefix of entries with priority ≤ the new entry's, then the new
entry, then the rest; when no strictly-lower entry exists the new entry
is appended; the first entry after the insertion point (if any) has
strictly greater numeric priority; and in a priority-sorted queue (the
shape reachable by these insertions) every existing equal-priority
entry stays before the new one. -/
theorem spec_C6_session_priority_insert (q : List QueueEntry) (e : QueueEntry) :
    insertByPriority q e =
        q.takeWhile (fun x => x.priority ≤ e.priority) ++
          e :: q.dropWhile (fun x => x.priority ≤ e.priority)
    ∧ ((∀ x ∈ q, x.priority ≤ e.priority) → insertByPriority q e = q ++ [e])
    ∧ (∀ y ys, q.dropWhile (fun x => x.priority ≤ e.priority) = y :: ys →
        e.priority < y.priority)
    ∧ (List.Pairwise (fun a b => a.priority ≤ b.priority) q →
        ∀ x ∈ q, x.priority = e.priority →
          x ∈ q.takeWhile (fun x => x.priority ≤ e.priority)) := by
  refine ⟨?_, ?_, ?_, ?_⟩
  · induction q with
    | nil => simp [insertByPriority]
    | cons q0 rest ih =>
        by_cases h : q0.priority > e.priority
        · simp [insertByPriority, h, List.takeWhile_cons, List.dropWhile_cons,
            Nat.not_le.mpr h]
        · simp [insertByPriority, h, List.takeWhile_cons, List.dropWhile_cons,
            Nat.not_lt.mp h, ih]
  · intro hall
    induction q with
    | nil => simp [insertByPriority]
    | cons q0 rest ih =>
        have h0 : ¬(q0.priority > e.priority) :=
          Nat.not_lt.mpr (hall q0 (List.mem_cons_self q0 rest))
        simp only [insertByPriority, if_neg h0, List.cons_append,
          List.cons.injEq, true_and]
        exact ih (fun x hx => hall x (List.mem_cons_of_mem q0 hx))
  · induction q with
    | nil => intro y ys h; simp at h
    | cons q0 rest ih =>
        intro y ys h
        by_cases h0 : q0.priority ≤ e.priority
        · rw [List.dropWhile_cons] at h
          simp only [h0, decide_eq_true_eq, if_pos] at h
          exact ih y ys (by simpa [h0] using h)
        · rw [List.dropWhile_cons] at h
          simp only [decide_eq_true_eq, h0, if_false] at h
          obtain ⟨hy, _⟩ := List.cons.injEq .. ▸ h
          have hlt : e.priority < q0.priority := Nat.not_le.mp h0
          cases h
          exact hlt
  · intro hsorted x hx hxe
    induction q with
    | nil => simp at hx
    | cons q0 rest ih =>
        by_cases h0 : q0.priority ≤ e.priority
        · rw [List.takeWhile_cons]
          simp only [h0, decide_eq_true_eq, if_pos]
          rcases List.mem_cons.mp hx with hx | hx
          · subst hx; exact List.mem_cons_self x _
          · exact List.mem_cons_of_mem q0
              (ih (List.Pairwise.sublist (List.sublist_cons_self q0 rest) hsorted) hx)
        · exfalso
          rcases List.mem_cons.mp hx with hx | hx
          · subst hx
            exact h0 (Nat.le_of_eq hxe)
          · have := (List.pairwise_cons.mp hsorted).1 x hx
            omega

theorem getLaneState_preserves (s : St) (lane : String) :
    (getLaneState s lane).2.sessionLanes = s.sessionLanes ∧
    (getLaneState s lane).2.activeSessionCount = s.activeSessionCount ∧
    (getLaneState s lane).2.maxConcurrentSessions = s.maxConcurrentSessions := by
  simp only [getLaneState]
  cases lookupA s.lanes lane <;> simp

theorem drainLane_preserves (s : St) (lane : String) :
    (drainLane s lane).sessionLanes = s.sessionLanes ∧
    (drainLane s lane).activeSessionCount = s.activeSessionCount ∧
    (drainLane s lane).maxConcurrentSessions = s.maxConcurrentSessions := by
  have h := getLaneState_preserves s lane
  rcases hgl : getLaneState s lane with ⟨st, s2⟩
  rw [hgl] at h
  rcases hp : pumpLane (getTotalQueued st) st s2.nextTaskId with ⟨st2, nid⟩
  simp only [drainLane, hgl, hp]
  exact ⟨h.1, h.2.1, h.2.2⟩

theorem enqueueCommandInLane_preserves (s : St) (lane : String)
    (pid warnAfterMs priority : Nat) (onWait : Option Nat) :
    (enqueueCommandInLane s lane pid warnAfterMs priority onWait).sessionLanes
        = s.sessionLanes ∧
    (enqueueCommandInLane s lane pid warnAfterMs priority onWait).activeSessionCount
        = s.activeSessionCount ∧
    (enqueueCommandInLane s lane pid warnAfterMs priority onWait).maxConcurrentSessions
        = s.maxConcurrentSessions := by
  have h := getLaneState_preserves s (cleanLane lane)
  rcases hgl : getLaneState s (cleanLane lane) with ⟨st, s2⟩
  rw [hgl] at h
  simp only [enqueueCommandInLane, hgl]
  refine ⟨?_, ?_, ?_⟩
  · rw [(drainLane_preserves _ _).1]; exact h.1
  · rw [(drainLane_preserves _ _).2.1]; exact h.2.1
  · rw [(drainLane_preserves _ _).2.2]; exact h.2.2

/-- C9: a session enqueue with an empty (falsy) session key creates no
session lane: it delegates to the main named lane with the same
warn-after, priority and wait-callback options, and named-lane enqueues
never touch the session-lane map or the active-session count. -/
theorem spec_C9_empty_session_key_delegates :
    (∀ (s : St) (pid warnAfterMs priority : Nat) (onWait : Option Nat),
        enqueueSessionTask s "" pid warnAfterMs priority onWait
          = enqueueCommandInLane s mainLane pid warnAfterMs priority onWait)
    ∧ (∀ (s : St) (lane : String) (pid warnAfterMs priority : Nat)
        (onWait : Option Nat),
        (enqueueCommandInLane s lane pid warnAfterMs priority onWait).sessionLanes
            = s.sessionLanes ∧
        (enqueueCommandInLane s lane pid warnAfterMs priority onWait).activeSessionCount
            = s.activeSessionCount) := by
  constructor
  · intro s pid w p ow
    simp [enqueueSessionTask]
  · intro s lane pid w p ow
    exact ⟨(enqueueCommandInLane_preserves s lane pid w p ow).1,
           (enqueueCommandInLane_preserves s lane pid w p ow).2.1⟩

/-- Witness: the delegation and session-state preservation evaluated at
the initial state. -/
theorem spec_C9_empty_session_key_delegates_witness :
    enqueueSessionTask state0 "" 5 2000 1 none
        = enqueueCommandInLane state0 mainLane 5 2000 1 none
    ∧ (enqueueCommandInLane state0 "cron" 5 2000 1 none).sessionLanes
        = state0.sessionLanes
    ∧ (enqueueCommandInLane state0 "cron" 5 2000 1 none).activeSessionCount
        = state0.activeSessionCount :=
  ⟨spec_C9_empty_session_key_delegates.1 state0 5 2000 1 none,
   (spec_C9_empty_session_key_delegates.2 state0 "cron" 5 2000 1 none).1,
   (spec_C9_empty_session_key_delegates.2 state0 "cron" 5 2000 1 none).2⟩

end CmdQueue

namespace Coalesce

open SpecUtil

theorem clearAllWindows_aux :
    ∀ (ws : List (String × CoalesceWindow)) (res : List (Nat × List Msg))
      (np : Nat),
      clearAllWindows { activeWindows := ws, resolved := res, nextPid := np }
        = { activeWindows := [],
            resolved := res ++ ws.flatMap
              (fun kw => kw.2.waiters.map (fun pid => (pid, kw.2.messages))),
            nextPid := np } := by
  intro ws
  induction ws with
  | nil => intro res np; simp [clearAllWindows]
  | cons kw rest ih =>
      intro res np
      obtain ⟨k, w⟩ := kw
      have hclose :
          closeWindow k { activeWindows := (k, w) :: rest, resolved := res,
                          nextPid := np }
            = { activeWindows := rest,
                resolved := res ++ w.waiters.map (fun pid => (pid, w.messages)),
                nextPid := np } := by
        simp [closeWindow, lookupA, eraseA]
      have hfold :
          clearAllWindows { activeWindows := (k, w) :: rest, resolved := res,
                            nextPid := np }
            = clearAllWindows
                { activeWindows := rest,
                  resolved := res ++ w.waiters.map (fun pid => (pid, w.messages)),
                  nextPid := np } := by
        simp only [clearAllWindows, List.map_cons, List.foldl_cons]
        rw [hclose]
      rw [hfold, ih]
      simp [List.append_assoc]

/-- C10: clearAllWindows closes (rather than discards) every active
window: afterwards the active-window map is empty, and every waiter of
every window has been resolved with that window's accumulated message
list (the pending timers are cleared by closeWindow; promise ids are
not re-allocated). -/
theorem spec_C10_clearAllWindows_closes_all (s : St) :
    (clearAllWindows s).activeWindows = [] ∧
    (clearAllWindows s).resolved =
      s.resolved ++ s.activeWindows.flatMap
        (fun kw => kw.2.waiters.map (fun pid => (pid, kw.2.messages))) ∧
    (clearAllWindows s).nextPid = s.nextPid := by
  obtain ⟨ws, res, np⟩ := s
  rw [clearAllWindows_aux ws res np]
  exact ⟨rfl, rfl, rfl⟩

theorem lookupA_mem {α β : Type} [DecidableEq α]
    (l : List (α × β)) (k : α) (v : β) (h : lookupA l k = some v) :
    (k, v) ∈ l := by
  induction l with
  | nil => simp [lookupA] at h
  | cons p rest ih =>
      obtain ⟨k1, v1⟩ := p
      by_cases hk : k1 = k
      · subst hk
        simp [lookupA] at h
        subst h
        exact List.mem_cons_self _ _
      · simp [lookupA, hk] at h
        exact List.mem_cons_of_mem _ (ih h)

theorem mem_allW_eraseA (ws : List (String × CoalesceWindow)) (k : String)
    (x : Nat) (h : x ∈ (eraseA ws k).flatMap (fun kw => kw.2.waiters)) :
    x ∈ ws.flatMap (fun kw => kw.2.waiters) := by
  obtain ⟨kw, hkw, hx⟩ := List.mem_flatMap.mp h
  exact List.mem_flatMap.mpr ⟨kw, mem_eraseA ws k kw hkw, hx⟩

theorem mem_allW_setA (ws : List (String × CoalesceWindow)) (k : String)
    (w : CoalesceWindow) (x : Nat)
    (h : x ∈ (setA ws k w).flatMap (fun kw => kw.2.waiters)) :
    x ∈ w.waiters ∨ x ∈ ws.flatMap (fun kw => kw.2.waiters) := by
  obtain ⟨kw, hkw, hx⟩ := List.mem_flatMap.mp h
  rcases mem_setA ws k w kw hkw with hq | hq
  · left
    rw [hq] at hx
    exact hx
  · exact Or.inr (List.mem_flatMap.mpr ⟨kw, hq, hx⟩)

theorem closeWindow_preserves_lost (k : String) (s : St) (pid : Nat)
    (h : LostPid s pid) : LostPid (closeWindow k s) pid := by
  obtain ⟨hn, hr, hw⟩ := h
  simp only [closeWindow]
  cases hl : lookupA s.activeWindows k with
  | none => exact ⟨hn, hr, hw⟩
  | some w =>
      refine ⟨hn, ?_, ?_⟩
      · simp only [resolvedIds, List.map_append, List.mem_append]
        rintro (h | h)
        · exact hr h
        · apply hw
          simp only [List.map_map] at h
          have hx : pid ∈ w.waiters := by
            simpa using h
          simp only [allWaiters]
          have hmem := lookupA_mem s.activeWindows k w hl
          exact List.mem_flatMap.mpr ⟨(k, w), hmem, hx⟩
      · intro h
        exact hw (mem_allW_eraseA s.activeWindows k pid h)

theorem mem_waiters_of_lookup (s : St) (k : String) (w : CoalesceWindow)
    (hl : lookupA s.activeWindows k = some w) (x : Nat) (hx : x ∈ w.waiters) :
    x ∈ allWaiters s :=
  List.mem_flatMap.mpr ⟨(k, w), lookupA_mem s.activeWindows k w hl, hx⟩

theorem step_preserves_lost (cfg : Config) (s : St) (e : Ev) (pid : Nat)
    (h : LostPid s pid) : LostPid (step cfg s e) pid := by
  obtain ⟨hn, hr, hw⟩ := h
  cases e with
  | timerFire k => exact closeWindow_preserves_lost k s pid ⟨hn, hr, hw⟩
  | flush k => exact closeWindow_preserves_lost k s pid ⟨hn, hr, hw⟩
  | clearAll =>
      show LostPid (clearAllWindows s) pid
      obtain ⟨ws, res, np⟩ := s
      rw [clearAllWindows_aux ws res np]
      refine ⟨hn, ?_, by simp [allWaiters]⟩
      simp only [resolvedIds, List.map_append, List.mem_append]
      rintro (h | h)
      · exact hr h
      · apply hw
        simp only [List.map_flatMap, List.mem_flatMap] at h
        obtain ⟨kw, hkw, hpin⟩ := h
        simp only [List.map_map, List.mem_map] at hpin
        obtain ⟨q, hq, hqe⟩ := hpin
        simp only [Function.comp] at hqe
        exact List.mem_flatMap.mpr ⟨kw, hkw, by rw [← hqe]; exact hq⟩
  | call k m now =>
      have hpid : pid ≠ s.nextPid := by omega
      simp only [step, coalesceMessage]
      by_cases hskip : shouldSkipCoalescing cfg k = true
      · simp only [hskip, if_true]
        refine ⟨by simp [resolvePid]; omega, ?_, by simpa [resolvePid, allWaiters] using hw⟩
        simp only [resolvePid, resolvedIds, List.map_append, List.mem_append]
        rintro (h | h)
        · exact hr h
        · simp at h
          exact hpid h
      · simp only [Bool.not_eq_true] at hskip
        simp only [hskip, Bool.false_eq_true, if_false]
        cases hl : lookupA s.activeWindows k with
        | some existing =>
            simp only [hl]
            by_cases hmax : existing.messages.length + 1 ≥ cfg.maxMessages
            · have hlen :
                  (({ existing with
                      messages := existing.messages ++ [m] } :
                    CoalesceWindow).messages).length ≥ cfg.maxMessages := by
                simpa using hmax
              simp only [List.length_append, List.length_cons,
                List.length_nil, hlen, ge_iff_le, if_pos]
              split
              · next hcond =>
                  apply closeWindow_preserves_lost
                  refine ⟨by simp; omega, by simpa [resolvedIds] using hr, ?_⟩
                  intro hmem
                  simp only [allWaiters] at hmem
                  rcases mem_allW_setA _ _ _ _ hmem with hmem | hmem
                  · exact hw (mem_waiters_of_lookup s k existing hl pid hmem)
                  · exact hw hmem
              · next hcond =>
                  exfalso
                  apply hcond
                  simpa using hmax
            · split
              · next hcond =>
                  exfalso
                  apply hmax
                  simpa using hcond
              · next hcond =>
                  refine ⟨by simp; omega, by simpa [resolvedIds] using hr, ?_⟩
                  intro hmem
                  simp only [allWaiters] at hmem
                  rcases mem_allW_setA _ _ _ _ hmem with hmem | hmem
                  · simp only [List.mem_append, List.mem_singleton] at hmem
                    rcases hmem with hmem | hmem
                    · exact hw (mem_waiters_of_lookup s k existing hl pid
                        (by simpa using hmem))
                    · exact hpid hmem
                  · rcases mem_allW_setA _ _ _ _ hmem with hmem2 | hmem2
                    · exact hw (mem_waiters_of_lookup s k existing hl pid
                        (by simpa using hmem2))
                    · exact hw hmem2
        | none =>
            simp only [hl]
            refine ⟨by simp; omega, by simpa [resolvedIds] using hr, ?_⟩
            intro hmem
            simp only [allWaiters] at hmem
            rcases mem_allW_setA _ _ _ _ hmem with hmem | hmem
            · simp at hmem
              exact hpid hmem
            · exact hw hmem

theorem run_preserves_lost (cfg : Config) :
    ∀ (evs : List Ev) (s : St) (pid : Nat),
      LostPid s pid → LostPid (run cfg s evs) pid := by
  intro evs
  induction evs with
  | nil => intro s pid h; exact h
  | cons e rest ih =>
      intro s pid h
      exact ih _ _ (step_preserves_lost cfg s e pid h)

/-- C1 is falsified by the code.  In the repository's own test scenario
(windowMs 5000, maxMessages 3, three rapid messages on one session) the
first two callers resolve with the full three-message batch, but the
caller whose message reached maxMessages — promise id 2 — is resolved
with nothing, and no continuation of the run can ever resolve it:
closeWindow fired and discarded the window before that caller's resolve
was chained onto it. -/
theorem spec_C1_closing_caller_never_resolves :
    (run cfgMax3 state0 closingTrace).resolved
        = [(0, [msgN 1, msgN 2, msgN 3]), (1, [msgN 1, msgN 2, msgN 3])]
    ∧ (run cfgMax3 state0 closingTrace).activeWindows = []
    ∧ (run cfgMax3 state0 closingTrace).nextPid = 3
    ∧ 2 ∉ resolvedIds (run cfgMax3 state0 closingTrace)
    ∧ ∀ evs, 2 ∉ resolvedIds (run cfgMax3 (run cfgMax3 state0 closingTrace) evs) := by
  refine ⟨by decide, by decide, by decide, by decide, ?_⟩
  intro evs
  have hlost : LostPid (run cfgMax3 state0 closingTrace) 2 :=
    ⟨by decide, by decide, by decide⟩
  exact (run_preserves_lost cfgMax3 evs (run cfgMax3 state0 closingTrace) 2 hlost).2.1

end Coalesce

namespace SpecUtil

theorem lookupA_eq_none {α β : Type} [DecidableEq α]
    (l : List (α × β)) (k : α) (h : ∀ kv ∈ l, kv.1 ≠ k) :
    lookupA l k = none := by
  induction l with
  | nil => rfl
  | cons p rest ih =>
      obtain ⟨k1, v1⟩ := p
      have hk : k1 ≠ k := h (k1, v1) (List.mem_cons_self _ _)
      simp only [lookupA, if_neg hk]
      exact ih (fun kv hkv => h kv (List.mem_cons_of_mem _ hkv))

theorem setA_length_absent {α β : Type} [DecidableEq α]
    (l : List (α × β)) (k : α) (v : β) (h : lookupA l k = none) :
    (setA l k v).length = l.length + 1 := by
  induction l with
  | nil => simp [setA]
  | cons p rest ih =>
      obtain ⟨k1, v1⟩ := p
      by_cases hk : k1 = k
      · simp [lookupA, hk] at h
      · simp only [lookupA, if_neg hk] at h
        simp [setA, hk, ih h]

theorem eraseA_length_present {α β : Type} [DecidableEq α]
    (l : List (α × β)) (k : α) (v : β) (h : lookupA l k = some v) :
    l.length = (eraseA l k).length + 1 := by
  induction l with
  | nil => simp [lookupA] at h
  | cons p rest ih =>
      obtain ⟨k1, v1⟩ := p
      by_cases hk : k1 = k
      · simp [eraseA, hk]
      · simp only [lookupA, if_neg hk] at h
        simp [eraseA, hk, ih h]

theorem length_filter_not_split {α : Type} (l : List α) (q : α → Bool) :
    (l.filter q).length + (l.filter (fun x => !(q x))).length = l.length := by
  induction l with
  | nil => simp
  | cons a rest ih =>
      by_cases h : q a = true <;> simp [List.filter_cons, h] <;> omega

end SpecUtil

namespace TimerMgr

open SpecUtil

theorem timer_step_accounting (s : St) (e : Ev) (hf : FreshIds s) :
    FreshIds (step s e) ∧
    (step s e).activeTimers.length + (step s e).totalCancelled
        + (if isTimeoutFire s e then 1 else 0) + s.totalCreated
      = s.activeTimers.length + s.totalCancelled + (step s e).totalCreated ∧
    (step s e).totalFired
      = s.totalFired + (if isTimeoutFire s e then 1 else 0)
          + (if isIntervalFire s e then 1 else 0) := by
  cases e with
  | createTimeout d l now =>
      have hnone : lookupA s.activeTimers { label := l, counter := s.nextId } = none := by
        apply lookupA_eq_none
        intro kv hkv heq
        have := hf kv hkv
        rw [heq] at this
        simp at this
      refine ⟨?_, ?_, by simp [step, managedSetTimeout, generateId, isTimeoutFire, isIntervalFire]⟩
      · intro kv hkv
        simp only [step, managedSetTimeout, generateId] at hkv
        rcases mem_setA _ _ _ _ hkv with hq | hq
        · simp [step, managedSetTimeout, generateId, hq]
        · have := hf kv hq
          simp only [step, managedSetTimeout, generateId]
          omega
      · simp only [step, managedSetTimeout, generateId, isTimeoutFire, isIntervalFire]
        rw [setA_length_absent _ _ _ hnone]
        simp
        omega
  | createInterval d l now =>
      have hnone : lookupA s.activeTimers { label := l, counter := s.nextId } = none := by
        apply lookupA_eq_none
        intro kv hkv heq
        have := hf kv hkv
        rw [heq] at this
        simp at this
      refine ⟨?_, ?_, by simp [step, managedSetInterval, generateId, isTimeoutFire, isIntervalFire]⟩
      · intro kv hkv
        simp only [step, managedSetInterval, generateId] at hkv
        rcases mem_setA _ _ _ _ hkv with hq | hq
        · simp [step, managedSetInterval, generateId, hq]
        · have := hf kv hq
          simp only [step, managedSetInterval, generateId]
          omega
      · simp only [step, managedSetInterval, generateId, isTimeoutFire, isIntervalFire]
        rw [setA_length_absent _ _ _ hnone]
        simp
        omega
  | fire id =>
      cases hl : lookupA s.activeTimers id with
      | none =>
          refine ⟨?_, ?_, ?_⟩ <;>
            simp [step, fireTimer, hl, isTimeoutFire, isIntervalFire, hf]
      | some entry =>
          cases htype : entry.type with
          | timeout =>
              have hlen := eraseA_length_present s.activeTimers id entry hl
              refine ⟨?_, ?_, ?_⟩
              · intro kv hkv
                simp only [step, fireTimer, hl, htype] at hkv ⊢
                exact hf kv (mem_eraseA _ _ _ hkv)
              · simp only [step, fireTimer, hl, htype, isTimeoutFire]
                simp [htype]
                omega
              · simp [step, fireTimer, hl, htype, isTimeoutFire, isIntervalFire]
          | interval =>
              refine ⟨?_, ?_, ?_⟩
              · intro kv hkv
                simp only [step, fireTimer, hl, htype] at hkv ⊢
                exact hf kv hkv
              · simp [step, fireTimer, hl, htype, isTimeoutFire]
              · simp [step, fireTimer, hl, htype, isTimeoutFire, isIntervalFire]
  | clear id =>
      cases hl : lookupA s.activeTimers id with
      | none =>
          refine ⟨?_, ?_, ?_⟩ <;>
            simp [step, clearManagedTimer, hl, isTimeoutFire, isIntervalFire, hf]
      | some entry =>
          have hlen := eraseA_length_present s.activeTimers id entry hl
          refine ⟨?_, ?_, ?_⟩
          · intro kv hkv
            simp only [step, clearManagedTimer, hl] at hkv ⊢
            exact hf kv (mem_eraseA _ _ _ hkv)
          · simp only [step, clearManagedTimer, hl, isTimeoutFire, isIntervalFire]
            simp
            omega
          · simp [step, clearManagedTimer, hl, isTimeoutFire, isIntervalFire]
  | clearAll =>
      refine ⟨?_, ?_, ?_⟩
      · intro kv hkv
        simp [step, clearAllTimers] at hkv
      · simp [step, clearAllTimers, isTimeoutFire, isIntervalFire]
        omega
      · simp [step, clearAllTimers, isTimeoutFire, isIntervalFire]
  | clearByLabel p =>
      have hsplit := length_filter_not_split s.activeTimers
        (fun kv => p kv.2.label)
      refine ⟨?_, ?_, ?_⟩
      · intro kv hkv
        simp only [step, clearTimersByLabel] at hkv ⊢
        exact hf kv (List.mem_filter.mp hkv).1
      · simp only [step, clearTimersByLabel, isTimeoutFire, isIntervalFire]
        simp
        omega
      · simp [step, clearTimersByLabel, isTimeoutFire, isIntervalFire]

theorem run_timer_accounting (tr : List Ev) :
    ∀ s, FreshIds s →
      FreshIds (run s tr) ∧
      (run s tr).activeTimers.length + (run s tr).totalCancelled
          + timeoutFires s tr + s.totalCreated
        = s.activeTimers.length + s.totalCancelled + (run s tr).totalCreated ∧
      (run s tr).totalFired
        = s.totalFired + timeoutFires s tr + intervalFires s tr := by
  induction tr with
  | nil =>
      intro s hf
      exact ⟨hf, by simp [run, timeoutFires], by simp [run, timeoutFires, intervalFires]⟩
  | cons e rest ih =>
      intro s hf
      obtain ⟨hf2, heq2, hfire2⟩ := timer_step_accounting s e hf
      obtain ⟨hf3, heq3, hfire3⟩ := ih (step s e) hf2
      refine ⟨by simpa [run] using hf3, ?_, ?_⟩
      · have : run s (e :: rest) = run (step s e) rest := rfl
        rw [this, timeoutFires]
        omega
      · have : run s (e :: rest) = run (step s e) rest := rfl
        rw [this, timeoutFires, intervalFires]
        omega

/-- C4 (amended): getTimerStats().active + totalFired + totalCancelled
always exceeds totalCreated by exactly the number of interval ticks so
far — each interval tick increments totalFired without removing an
entry — so the claimed identity active = totalCreated − totalFired −
totalCancelled holds exactly for the traces with no interval tick. -/
theorem spec_C4_timer_stats_accounting (tr : List Ev) :
    (getTimerStats (run state0 tr)).active + (run state0 tr).totalFired
        + (run state0 tr).totalCancelled
      = (run state0 tr).totalCreated + intervalFires state0 tr
    ∧ (intervalFires state0 tr = 0 →
        (getTimerStats (run state0 tr)).active
          = (run state0 tr).totalCreated - (run state0 tr).totalFired
              - (run state0 tr).totalCancelled) := by
  have h := run_timer_accounting tr state0 (by intro kv hkv; simp [state0] at hkv)
  obtain ⟨_, heq, hfire⟩ := h
  have h1 : state0.activeTimers.length = 0 := rfl
  have h2 : state0.totalCancelled = 0 := rfl
  have h3 : state0.totalCreated = 0 := rfl
  have h4 : state0.totalFired = 0 := rfl
  simp only [h1, h2, h3, h4, Nat.zero_add, Nat.add_zero] at heq hfire
  constructor
  · simp only [getTimerStats]
    omega
  · intro h0
    simp only [getTimerStats]
    omega

/-- C4 as stated is falsified by one interval tick: after creating one
interval and letting it fire once, one timer is active but created −
fired − cancelled = 1 − 1 − 0 = 0. -/
theorem spec_C4_counterexample :
    (getTimerStats (run state0
        [Ev.createInterval 100 "i" 0, Ev.fire { label := "i", counter := 1 }])).active
      ≠ (getTimerStats (run state0
          [Ev.createInterval 100 "i" 0, Ev.fire { label := "i", counter := 1 }])).totalCreated
        - (getTimerStats (run state0
            [Ev.createInterval 100 "i" 0, Ev.fire { label := "i", counter := 1 }])).totalFired
        - (getTimerStats (run state0
            [Ev.createInterval 100 "i" 0, Ev.fire { label := "i", counter := 1 }])).totalCancelled := by
  decide

/-- Witness: the amended identity evaluated on a concrete
timeout-only trace (create, fire, create, cancel). -/
theorem spec_C4_timer_stats_accounting_witness :
    (getTimerStats (run state0
        [Ev.createTimeout 100 "t" 0, Ev.fire { label := "t", counter := 1 },
         Ev.createTimeout 50 "u" 0, Ev.clear { label := "u", counter := 2 }])).active
      = (run state0
          [Ev.createTimeout 100 "t" 0, Ev.fire { label := "t", counter := 1 },
           Ev.createTimeout 50 "u" 0, Ev.clear { label := "u", counter := 2 }]).totalCreated
        - (run state0
            [Ev.createTimeout 100 "t" 0, Ev.fire { label := "t", counter := 1 },
             Ev.createTimeout 50 "u" 0, Ev.clear { label := "u", counter := 2 }]).totalFired
        - (run state0
            [Ev.createTimeout 100 "t" 0, Ev.fire { label := "t", counter := 1 },
             Ev.createTimeout 50 "u" 0, Ev.clear { label := "u", counter := 2 }]).totalCancelled :=
  (spec_C4_timer_stats_accounting
    [Ev.createTimeout 100 "t" 0, Ev.fire { label := "t", counter := 1 },
     Ev.createTimeout 50 "u" 0, Ev.clear { label := "u", counter := 2 }]).2
    (by decide)

end TimerMgr

namespace SpecUtil

theorem lookupA_append_left {α β : Type} [DecidableEq α]
    (l l2 : List (α × β)) (k : α) (v : β) (h : lookupA l k = some v) :
    lookupA (l ++ l2) k = some v := by
  induction l with
  | nil => simp [lookupA] at h
  | cons p rest ih =>
      obtain ⟨k1, v1⟩ := p
      by_cases hk : k1 = k
      · simpa [lookupA, hk] using h
      · simp only [lookupA, if_neg hk, List.cons_append] at h ⊢
        exact ih h

end SpecUtil

namespace Subagent

open SpecUtil

theorem beginSubagentCleanup_fields (s : St) (runId : String) :
    (beginSubagentCleanup s runId).2.waiterResolved = s.waiterResolved ∧
    (beginSubagentCleanup s runId).2.waiters = s.waiters ∧
    (beginSubagentCleanup s runId).2.nextPid = s.nextPid := by
  cases hl : lookupA s.subagentRuns runId with
  | none => simp [beginSubagentCleanup, hl]
  | some entry =>
      by_cases h1 : entry.cleanupCompletedAt.isSome = true <;>
        by_cases h2 : entry.cleanupHandled = true <;>
          simp [beginSubagentCleanup, hl, h1, h2]

theorem deliverLifecycle_end (s : St) (evt : LifecycleEvt) (now : Nat)
    (hstream : evt.stream = "lifecycle")
    (hphase : evt.phase = "end" ∨ evt.phase = "error")
    (entry : SubagentRunRecord)
    (hl : lookupA s.subagentRuns evt.runId = some entry) :
    (deliverLifecycle s evt now).waiterResolved
      = s.waiterResolved ++ (s.waiters.filter (fun w => w.2 = evt.runId)).map
          (fun w => (w.1, some (endedRecord entry evt now)))
    ∧ (deliverLifecycle s evt now).waiters
      = s.waiters.filter (fun w => w.2 ≠ evt.runId) := by
  have hne : ¬(evt.stream ≠ "lifecycle") := by simp [hstream]
  have hnstart : ¬(evt.phase = "start") := by
    rcases hphase with h | h <;> simp [h]
  simp only [deliverLifecycle, if_neg hne, hl, if_neg hnstart, if_pos hphase]
  constructor
  · rw [(beginSubagentCleanup_fields _ _).1]
    simp [emitSubagentCompletionEvent, notifyCompletionWaiters]
  · rw [(beginSubagentCleanup_fields _ _).2.1]
    simp [emitSubagentCompletionEvent, notifyCompletionWaiters]

theorem deliverLifecycle_mono (s : St) (evt : LifecycleEvt) (now : Nat) :
    ∃ tail, (deliverLifecycle s evt now).waiterResolved
      = s.waiterResolved ++ tail := by
  by_cases hs : evt.stream ≠ "lifecycle"
  · exact ⟨[], by simp [deliverLifecycle, hs]⟩
  · cases hl : lookupA s.subagentRuns evt.runId with
    | none => exact ⟨[], by simp [deliverLifecycle, hs, hl]⟩
    | some entry =>
        by_cases hstart : evt.phase = "start"
        · cases hsd : evt.startedAtData with
          | none => exact ⟨[], by simp [deliverLifecycle, hs, hl, hstart, hsd]⟩
          | some t =>
              by_cases ht : t ≠ 0
              · exact ⟨[], by simp [deliverLifecycle, hs, hl, hstart, hsd, ht]⟩
              · exact ⟨[], by simp [deliverLifecycle, hs, hl, hstart, hsd, ht]⟩
        · by_cases hend : evt.phase = "end" ∨ evt.phase = "error"
          · have hstream : evt.stream = "lifecycle" := by
              by_contra hc
              exact hs hc
            exact ⟨_, (deliverLifecycle_end s evt now hstream hend entry hl).1⟩
          · exact ⟨[], by simp [deliverLifecycle, hs, hl, hstart, hend]⟩

theorem step_waiterResolved_mono (s : St) (e : Ev) :
    ∃ tail, (step s e).waiterResolved = s.waiterResolved ++ tail := by
  cases e with
  | register r c q d t cl l a now =>
      exact ⟨[], by simp [step, registerSubagentRun]⟩
  | lifecycle evt now => exact deliverLifecycle_mono s evt now
  | wait runId =>
      cases hl : lookupA s.subagentRuns runId with
      | none =>
          exact ⟨[(s.nextPid, none)], by simp [step, waitForSubagentRun, hl]⟩
      | some entry =>
          by_cases ht : endedAtTruthy entry.endedAt = true
          · exact ⟨[(s.nextPid, some entry)],
              by simp [step, waitForSubagentRun, hl, ht]⟩
          · exact ⟨[], by simp [step, waitForSubagentRun, hl, ht]⟩
  | timeoutFire pid =>
      by_cases hp : s.waiters.any (fun w => w.1 = pid) = true
      · exact ⟨[(pid, none)], by simp [step, waitTimeout, hp]⟩
      · exact ⟨[], by simp [step, waitTimeout, hp]⟩
  | finalizeCleanup r cl d now =>
      cases hl : lookupA s.subagentRuns r with
      | none => exact ⟨[], by simp [step, finalizeSubagentCleanup, hl]⟩
      | some entry =>
          by_cases hd : d = true
          · cases cl <;>
              exact ⟨[], by simp [step, finalizeSubagentCleanup, hl, hd]⟩
          · exact ⟨[], by simp [step, finalizeSubagentCleanup, hl, hd]⟩
  | release r => exact ⟨[], by simp [step, releaseSubagentRun]⟩
  | sweep now => exact ⟨[], by simp [step, sweepSubagentRuns]⟩

theorem waiterValue_stable :
    ∀ (tr : List Ev) (s : St) (pid : Nat) (v : Option SubagentRunRecord),
      waiterValue s pid = some v → waiterValue (run s tr) pid = some v := by
  intro tr
  induction tr with
  | nil => intro s pid v h; exact h
  | cons e rest ih =>
      intro s pid v h
      obtain ⟨tail, htail⟩ := step_waiterResolved_mono s e
      have : waiterValue (step s e) pid = some v := by
        simp only [waiterValue, htail]
        exact lookupA_append_left _ _ _ _ h
      exact ih (step s e) pid v this

/-- C7 (amended): waitForSubagentRun resolves immediately with the
record when the record's endedAt is a nonzero timestamp (the code tests
JS truthiness, so endedAt = 0 falls through to the waiter path);
resolves immediately with null for an unknown runId; otherwise
registers the caller in the waiter set; an end/error event for a
registered run resolves every waiter of that run with the one updated
record and deregisters them; a timeout firing for a still-pending
waiter resolves it with null and deregisters it, and is a no-op once
the waiter settled; and a settled waiter's value never changes under
any further events, so every caller resolves exactly once. -/
theorem spec_C7_waitForSubagentRun (s : St) (runId : String) :
    (∀ entry, lookupA s.subagentRuns runId = some entry →
        endedAtTruthy entry.endedAt = true →
        (waitForSubagentRun s runId).2.waiterResolved
            = s.waiterResolved ++ [((waitForSubagentRun s runId).1, some entry)]
        ∧ (waitForSubagentRun s runId).2.waiters = s.waiters)
    ∧ (lookupA s.subagentRuns runId = none →
        (waitForSubagentRun s runId).2.waiterResolved
            = s.waiterResolved ++ [((waitForSubagentRun s runId).1, none)]
        ∧ (waitForSubagentRun s runId).2.waiters = s.waiters)
    ∧ (∀ entry, lookupA s.subagentRuns runId = some entry →
        endedAtTruthy entry.endedAt = false →
        (waitForSubagentRun s runId).2.waiters
            = s.waiters ++ [((waitForSubagentRun s runId).1, runId)]
        ∧ (waitForSubagentRun s runId).2.waiterResolved = s.waiterResolved)
    ∧ (∀ evt now entry, evt.runId = runId → evt.stream = "lifecycle" →
        (evt.phase = "end" ∨ evt.phase = "error") →
        lookupA s.subagentRuns runId = some entry →
        (deliverLifecycle s evt now).waiterResolved
            = s.waiterResolved ++ (s.waiters.filter (fun w => w.2 = runId)).map
                (fun w => (w.1, some (endedRecord entry evt now)))
        ∧ (deliverLifecycle s evt now).waiters
            = s.waiters.filter (fun w => w.2 ≠ runId))
    ∧ (∀ pid, (s.waiters.any (fun w => w.1 = pid) = true →
          (waitTimeout s pid).waiterResolved = s.waiterResolved ++ [(pid, none)]
          ∧ (waitTimeout s pid).waiters = s.waiters.filter (fun w => w.1 ≠ pid))
        ∧ (s.waiters.any (fun w => w.1 = pid) = false → waitTimeout s pid = s))
    ∧ (∀ tr pid v, waiterValue s pid = some v →
        waiterValue (run s tr) pid = some v) := by
  refine ⟨?_, ?_, ?_, ?_, ?_, ?_⟩
  · intro entry hl ht
    constructor <;> simp [waitForSubagentRun, hl, ht]
  · intro hl
    constructor <;> simp [waitForSubagentRun, hl]
  · intro entry hl ht
    constructor <;> simp [waitForSubagentRun, hl, ht]
  · intro evt now entry hrid hstream hphase hl
    rw [← hrid] at hl ⊢
    exact deliverLifecycle_end s evt now hstream hphase entry hl
  · intro pid
    constructor
    · intro hp
      constructor <;> simp [waitTimeout, hp]
    · intro hp
      simp [waitTimeout, hp]
  · intro tr pid v h
    exact waiterValue_stable tr s pid v h

/-- Witness: waiting on an unknown run resolves immediately with null;
waiting on a completed run (nonzero endedAt) resolves immediately with
the record; and a settled value survives further events. -/
theorem spec_C7_waitForSubagentRun_witness :
    ((waitForSubagentRun (run state0 singleEndTrace) "nope").2.waiterResolved
        = (run state0 singleEndTrace).waiterResolved ++
            [((waitForSubagentRun (run state0 singleEndTrace) "nope").1, none)]
      ∧ (waitForSubagentRun (run state0 singleEndTrace) "nope").2.waiters
        = (run state0 singleEndTrace).waiters)
    ∧ ((waitForSubagentRun (run state0 singleEndTrace) "r1").2.waiterResolved
        = (run state0 singleEndTrace).waiterResolved ++
            [((waitForSubagentRun (run state0 singleEndTrace) "r1").1,
              some (endedRecord
                { runId := "r1", childSessionKey := "child",
                  requesterSessionKey := "parent", requesterDisplayKey := "disp",
                  task := "task", cleanup := Cleanup.keep, createdAt := 5,
                  startedAt := some 5, cleanupHandled := true }
                { runId := "r1", stream := "lifecycle", phase := "end",
                  endedAtData := some 10 } 10))]
      ∧ (waitForSubagentRun (run state0 singleEndTrace) "r1").2.waiters
        = (run state0 singleEndTrace).waiters) :=
  ⟨(spec_C7_waitForSubagentRun (run state0 singleEndTrace) "nope").2.1 (by decide),
   (spec_C7_waitForSubagentRun (run state0 singleEndTrace) "r1").1 _ (by decide)
     (by decide)⟩

/-- C7 as stated is falsified at endedAt = 0: after an end event whose
payload carries endedAt 0, the record has endedAt set (to 0), yet a new
waitForSubagentRun call does not resolve immediately with the record —
it registers a waiter (which a timeout will later resolve with null). -/
theorem spec_C7_counterexample :
    (getSubagentRun (run state0 zeroEndTrace) "r1").map SubagentRunRecord.endedAt
        = some (some 0)
    ∧ (waitForSubagentRun (run state0 zeroEndTrace) "r1").2.waiters
        = [((waitForSubagentRun (run state0 zeroEndTrace) "r1").1, "r1")]
    ∧ (waitForSubagentRun (run state0 zeroEndTrace) "r1").2.waiterResolved = [] := by
  refine ⟨by decide, by decide, by decide⟩

theorem countEndedAtAssigns_le (runId : String) :
    ∀ (tr : List Ev) (s : St),
      countEndedAtAssigns s runId tr ≤ countEndErrorEvents runId tr := by
  intro tr
  induction tr with
  | nil => intro s; simp [countEndedAtAssigns, countEndErrorEvents]
  | cons e rest ih =>
      intro s
      have hrest := ih (step s e)
      cases e with
      | lifecycle evt now =>
          have hc : countEndErrorEvents runId (Ev.lifecycle evt now :: rest)
              = (if evt.runId = runId ∧ evt.stream = "lifecycle" ∧
                    (evt.phase = "end" ∨ evt.phase = "error") then 1 else 0)
                + countEndErrorEvents runId rest := rfl
          have hcA : countEndedAtAssigns s runId (Ev.lifecycle evt now :: rest)
              = (if assignsEndedAt s runId (Ev.lifecycle evt now) then 1 else 0)
                + countEndedAtAssigns (step s (Ev.lifecycle evt now)) runId
                    rest := rfl
          rw [hc, hcA]
          by_cases ha : assignsEndedAt s runId (Ev.lifecycle evt now) = true
          · have ha2 := ha
            simp only [assignsEndedAt, decide_eq_true_eq] at ha2
            have hcond : evt.runId = runId ∧ evt.stream = "lifecycle" ∧
                (evt.phase = "end" ∨ evt.phase = "error") :=
              ⟨ha2.1, ha2.2.1, ha2.2.2.1⟩
            rw [if_pos ha, if_pos hcond]
            omega
          · simp only [Bool.not_eq_true] at ha
            simp only [ha, Bool.false_eq_true, if_false]
            omega
      | register r c q d t cl l a now =>
          simpa [countEndedAtAssigns, countEndErrorEvents, assignsEndedAt]
            using hrest
      | wait r =>
          simpa [countEndedAtAssigns, countEndErrorEvents, assignsEndedAt]
            using hrest
      | timeoutFire p =>
          simpa [countEndedAtAssigns, countEndErrorEvents, assignsEndedAt]
            using hrest
      | finalizeCleanup r cl d now =>
          simpa [countEndedAtAssigns, countEndErrorEvents, assignsEndedAt]
            using hrest
      | release r =>
          simpa [countEndedAtAssigns, countEndErrorEvents, assignsEndedAt]
            using hrest
      | sweep now =>
          simpa [countEndedAtAssigns, countEndErrorEvents, assignsEndedAt]
            using hrest

/-- C3 (amended): the listener assigns endedAt exactly at the delivered
end/error lifecycle events of a registered run — there is no per-run
guard — so the number of assignment steps is bounded by the number of
end/error events delivered for that runId, and is at most one whenever
at most one such event is delivered; a duplicate end event assigns
endedAt again. -/
theorem spec_C3_endedAt_assignments (tr : List Ev) (runId : String) :
    countEndedAtAssigns state0 runId tr ≤ countEndErrorEvents runId tr
    ∧ (countEndErrorEvents runId tr ≤ 1 →
        countEndedAtAssigns state0 runId tr ≤ 1) := by
  have h := countEndedAtAssigns_le runId tr state0
  exact ⟨h, fun h1 => Nat.le_trans h h1⟩

/-- Witness: a single end event yields a single assignment. -/
theorem spec_C3_endedAt_assignments_witness :
    countEndedAtAssigns state0 "r1" singleEndTrace ≤ 1 :=
  (spec_C3_endedAt_assignments singleEndTrace "r1").2 (by decide)

/-- C3 as stated is falsified by a duplicate end event: delivering two
end events for the same registered run executes the endedAt assignment
twice (the second overwrites the first with the later timestamp). -/
theorem spec_C3_counterexample :
    countEndedAtAssigns state0 "r1" doubleEndTrace = 2
    ∧ (getSubagentRun (run state0 doubleEndTrace) "r1").map
        SubagentRunRecord.endedAt = some (some 11) := by
  refine ⟨by decide, by decide⟩

end Subagent

namespace AuthPreload

open SpecUtil

theorem touchCacheEntry_authCache (s : St) (key : String) :
    (touchCacheEntry s key).authCache = s.authCache := rfl

theorem lookupA_setCacheEntry (s : St) (key : String) (entry : CacheEntry) :
    lookupA (setCacheEntry s key entry).authCache key = some entry := by
  simp only [setCacheEntry, touchCacheEntry_authCache]
  exact lookupA_setA_self _ _ _

theorem getCachedAuth_cases (s : St) (provider : String)
    (profileId : Option String) (now : Nat) :
    (∀ entry,
        lookupA s.authCache (buildCacheKey provider profileId) = some entry →
        now < entry.expiresAt →
        (getCachedAuth s provider profileId now).1 = some entry.auth)
    ∧ (lookupA s.authCache (buildCacheKey provider profileId) = none →
        (getCachedAuth s provider profileId now).1 = none)
    ∧ (∀ entry,
        lookupA s.authCache (buildCacheKey provider profileId) = some entry →
        now ≥ entry.expiresAt →
        (getCachedAuth s provider profileId now).1 = none)
    ∧ (∀ auth, (getCachedAuth s provider profileId now).1 = some auth →
        ∃ entry,
          lookupA s.authCache (buildCacheKey provider profileId) = some entry
          ∧ now < entry.expiresAt ∧ auth = entry.auth) := by
  refine ⟨?_, ?_, ?_, ?_⟩
  · intro entry hl hfresh
    have hnot : ¬(now ≥ entry.expiresAt) := by omega
    by_cases hahead : now ≥ entry.expiresAt - AUTH_CACHE_REFRESH_AHEAD_MS <;>
      simp [getCachedAuth, getCacheEntry, hl, hnot, hahead]
  · intro hl
    simp [getCachedAuth, getCacheEntry, hl]
  · intro entry hl hexp
    simp [getCachedAuth, getCacheEntry, hl, hexp]
  · intro auth hsome
    cases hl : lookupA s.authCache (buildCacheKey provider profileId) with
    | none => simp [getCachedAuth, getCacheEntry, hl] at hsome
    | some entry =>
        by_cases hexp : now ≥ entry.expiresAt
        · simp [getCachedAuth, getCacheEntry, hl, hexp] at hsome
        · refine ⟨entry, rfl, by omega, ?_⟩
          by_cases hahead : now ≥ entry.expiresAt - AUTH_CACHE_REFRESH_AHEAD_MS <;>
            simp [getCachedAuth, getCacheEntry, hl, hexp, hahead] at hsome <;>
            exact hsome.symm

/-- C8: preloadAuth without force returns a cached credential only
while now < expiresAt for that key's entry (a cache hit never invokes
the resolver and returns exactly that entry's credential); when the
entry is absent or now ≥ expiresAt it invokes the resolver and, when
resolution succeeds, stores an entry with resolvedAt = tStore and
expiresAt = tStore + TTL under the key and returns the freshly
resolved credential. -/
theorem spec_C8_preloadAuth
    (resolver : String → Option String → Option ResolvedProviderAuth)
    (provider : String) (profileId : Option String) (tCheck tStore : Nat)
    (s : St) :
    (∀ entry,
        lookupA s.authCache (buildCacheKey provider profileId) = some entry →
        tCheck < entry.expiresAt →
        (preloadAuth resolver provider profileId false tCheck tStore s).1
            = some entry.auth
        ∧ (preloadAuth resolver provider profileId false tCheck tStore s).2.1
            = false)
    ∧ ((lookupA s.authCache (buildCacheKey provider profileId) = none ∨
        (∃ entry,
          lookupA s.authCache (buildCacheKey provider profileId) = some entry
          ∧ tCheck ≥ entry.expiresAt)) →
        (preloadAuth resolver provider profileId false tCheck tStore s).2.1
            = true
        ∧ ∀ auth, resolver provider profileId = some auth →
            (preloadAuth resolver provider profileId false tCheck tStore s).1
                = some auth
            ∧ lookupA
                (preloadAuth resolver provider profileId false tCheck
                  tStore s).2.2.authCache
                (buildCacheKey provider profileId)
              = some { auth := auth, provider := provider,
                       profileId := profileId, resolvedAt := tStore,
                       expiresAt := tStore + AUTH_CACHE_TTL_MS })
    ∧ ((preloadAuth resolver provider profileId false tCheck tStore s).2.1
          = false →
        ∃ entry,
          lookupA s.authCache (buildCacheKey provider profileId) = some entry
          ∧ tCheck < entry.expiresAt
          ∧ (preloadAuth resolver provider profileId false tCheck tStore s).1
              = some entry.auth) := by
  have hc := getCachedAuth_cases s provider profileId tCheck
  rcases hg : getCachedAuth s provider profileId tCheck with ⟨r, s2⟩
  refine ⟨?_, ?_, ?_⟩
  · intro entry hl hfresh
    have hr : r = some entry.auth := by
      have := hc.1 entry hl hfresh
      rw [hg] at this
      exact this
    subst hr
    constructor <;> simp [preloadAuth, hg]
  · intro hmiss
    have hr : r = none := by
      rcases hmiss with hl | ⟨entry, hl, hexp⟩
      · have := hc.2.1 hl
        rw [hg] at this
        exact this
      · have := hc.2.2.1 entry hl hexp
        rw [hg] at this
        exact this
    subst hr
    constructor
    · cases hres : resolver provider profileId <;>
        simp [preloadAuth, hg, hres]
    · intro auth hres
      constructor
      · simp [preloadAuth, hg, hres]
      · have : (preloadAuth resolver provider profileId false tCheck
            tStore s).2.2
            = setCacheEntry s2 (buildCacheKey provider profileId)
                { auth := auth, provider := provider, profileId := profileId,
                  resolvedAt := tStore,
                  expiresAt := tStore + AUTH_CACHE_TTL_MS } := by
          simp [preloadAuth, hg, hres]
        rw [this]
        exact lookupA_setCacheEntry _ _ _
  · intro hfalse
    cases hr : r with
    | some auth =>
        obtain ⟨entry, hl, hfresh, hauth⟩ := hc.2.2.2 auth (by rw [hg, hr])
        refine ⟨entry, hl, hfresh, ?_⟩
        rw [hr] at hg
        simp [preloadAuth, hg, hauth]
    | none =>
        rw [hr] at hg
        exfalso
        cases hres : resolver provider profileId <;>
          simp [preloadAuth, hg, hres] at hfalse

/-- Witness: a fresh cache hit returns the cached credential without
resolving; a cold-cache call resolves, returns and stores the entry
with expiresAt = resolvedAt + TTL. -/
theorem spec_C8_preloadAuth_witness :
    ((preloadAuth (fun _ _ => some { apiKey := none, source := "env" })
        "openai" none false 10 20
        { authCache := SpecUtil.setA [] (buildCacheKey "openai" none)
            { auth := { apiKey := none, source := "env" },
              provider := "openai", profileId := none, resolvedAt := 0,
              expiresAt := 300000 },
          cacheAccessOrder := [buildCacheKey "openai" none],
          refreshInProgress := [] }).1
      = some { apiKey := none, source := "env" })
    ∧ ((preloadAuth (fun _ _ => some { apiKey := none, source := "env" })
        "openai" none false 10 20 state0).2.1 = true)
    ∧ ((preloadAuth (fun _ _ => some { apiKey := none, source := "env" })
        "openai" none false 10 20 state0).1
          = some { apiKey := none, source := "env" }
      ∧ lookupA (preloadAuth (fun _ _ => some { apiKey := none, source := "env" })
            "openai" none false 10 20 state0).2.2.authCache
          (buildCacheKey "openai" none)
        = some { auth := { apiKey := none, source := "env" },
                 provider := "openai", profileId := none, resolvedAt := 20,
                 expiresAt := 20 + AUTH_CACHE_TTL_MS }) :=
  ⟨((spec_C8_preloadAuth (fun _ _ => some { apiKey := none, source := "env" })
      "openai" none 10 20 _).1 _
      (SpecUtil.lookupA_setA_self _ _ _) (by decide)).1,
   ((spec_C8_preloadAuth (fun _ _ => some { apiKey := none, source := "env" })
      "openai" none 10 20 state0).2.1 (Or.inl rfl)).1,
   ((spec_C8_preloadAuth (fun _ _ => some { apiKey := none, source := "env" })
      "openai" none 10 20 state0).2.1 (Or.inl rfl)).2 _ rfl⟩

end AuthPreload

namespace SpecUtil

theorem lookupA_eq_none_iff {α β : Type} [DecidableEq α]
    (l : List (α × β)) (k : α) :
    lookupA l k = none ↔ k ∉ l.map Prod.fst := by
  induction l with
  | nil => simp [lookupA]
  | cons p rest ih =>
      obtain ⟨k1, v1⟩ := p
      by_cases hk : k1 = k
      · subst hk
        simp [lookupA]
      · simp only [lookupA, if_neg hk, List.map_cons, List.mem_cons]
        rw [ih]
        constructor
        · intro h hh
          rcases hh with hh | hh
          · exact hk hh.symm
          · exact h hh
        · intro h hh
          exact h (Or.inr hh)

theorem setA_keys_present {α β : Type} [DecidableEq α]
    (l : List (α × β)) (k : α) (v w : β) (hl : lookupA l k = some w) :
    (setA l k v).map Prod.fst = l.map Prod.fst := by
  induction l with
  | nil => simp [lookupA] at hl
  | cons p rest ih =>
      obtain ⟨k1, v1⟩ := p
      by_cases hk : k1 = k
      · subst hk
        simp [setA]
      · simp only [lookupA, if_neg hk] at hl
        simp [setA, hk, ih hl]

theorem setA_absent_eq_append {α β : Type} [DecidableEq α]
    (l : List (α × β)) (k : α) (v : β) (hl : lookupA l k = none) :
    setA l k v = l ++ [(k, v)] := by
  induction l with
  | nil => simp [setA]
  | cons p rest ih =>
      obtain ⟨k1, v1⟩ := p
      by_cases hk : k1 = k
      · simp [lookupA, hk] at hl
      · simp only [lookupA, if_neg hk] at hl
        simp [setA, hk, ih hl]

end SpecUtil

namespace CmdQueue

open SpecUtil

theorem numActive_setA (ls : List (String × SessionLaneState)) (k : String)
    (v old : SessionLaneState) (hl : lookupA ls k = some old) :
    ((setA ls k v).filter (fun kw => kw.2.active)).length
        + (if old.active then 1 else 0)
      = (ls.filter (fun kw => kw.2.active)).length
        + (if v.active then 1 else 0) := by
  induction ls with
  | nil => simp [lookupA] at hl
  | cons p rest ih =>
      obtain ⟨k1, w1⟩ := p
      by_cases hk : k1 = k
      · subst hk
        have hw : w1 = old := by simpa [lookupA] using hl
        subst hw
        by_cases hv : v.active = true <;> by_cases ho : w1.active = true <;>
          simp [setA, List.filter_cons, hv, ho]
      · simp only [lookupA, if_neg hk] at hl
        have hr := ih hl
        cases hw : w1.active <;> simp [setA, hk, List.filter_cons, hw] <;> omega

theorem numActive_pos (ls : List (String × SessionLaneState)) (k : String)
    (lane : SessionLaneState) (hl : lookupA ls k = some lane)
    (ha : lane.active = true) :
    1 ≤ (ls.filter (fun kw => kw.2.active)).length := by
  have hmem : (k, lane) ∈ ls := Coalesce.lookupA_mem ls k lane hl
  have hmf : (k, lane) ∈ ls.filter (fun kw => kw.2.active) :=
    List.mem_filter.mpr ⟨hmem, by simpa using ha⟩
  exact List.length_pos_of_mem hmf

theorem numActive_append_inactive (ls : List (String × SessionLaneState))
    (k : String) (lane : SessionLaneState) (h : lane.active = false) :
    ((ls ++ [(k, lane)]).filter (fun kw => kw.2.active)).length
      = (ls.filter (fun kw => kw.2.active)).length := by
  simp [List.filter_append, h]

theorem QInv_of_fields (s s2 : St) (h1 : s2.sessionLanes = s.sessionLanes)
    (h2 : s2.activeSessionCount = s.activeSessionCount)
    (h3 : s2.maxConcurrentSessions = s.maxConcurrentSessions)
    (hinv : QInv s) : QInv s2 := by
  obtain ⟨ha, hb, hc⟩ := hinv
  refine ⟨by rw [h1]; exact ha, ?_, by rw [h2, h3]; exact hc⟩
  rw [h2, numActiveSessions, h1]
  exact hb

theorem drainSessionLane_spec (s : St) (k : String) :
    (∀ lane, lookupA s.sessionLanes k = some lane → lane.active = true →
        drainSessionLane s k = s)
    ∧ ((drainSessionLane s k).activeSessionCount ≠ s.activeSessionCount →
        s.activeSessionCount < s.maxConcurrentSessions)
    ∧ (drainSessionLane s k).maxConcurrentSessions = s.maxConcurrentSessions
    ∧ (QInv s → QInv (drainSessionLane s k)) := by
  cases hl : lookupA s.sessionLanes k with
  | none =>
      have hstep : drainSessionLane s k =
          { s with sessionLanes := s.sessionLanes ++
              [(k, { sessionKey := k, queue := [], active := false })] } := by
        simp [drainSessionLane, getSessionLaneState, hl]
      refine ⟨?_, ?_, ?_, ?_⟩
      · intro lane hle
        exact Option.noConfusion hle
      · rw [hstep]
        intro hne
        exact absurd rfl hne
      · rw [hstep]
      · intro hinv
        obtain ⟨ha, hb, hc⟩ := hinv
        rw [hstep]
        refine ⟨?_, ?_, hc⟩
        · simp only [List.map_append, List.map_cons, List.map_nil]
          rw [List.nodup_append]
          refine ⟨ha, List.nodup_singleton k, ?_⟩
          intro x hx hx2
          simp only [List.mem_singleton] at hx2
          subst hx2
          exact (lookupA_eq_none_iff s.sessionLanes x).mp hl hx
        · show s.activeSessionCount = numActiveSessions _
          simp only [numActiveSessions]
          rw [numActive_append_inactive _ _ _ rfl]
          exact hb
  | some lane =>
      cases hact : lane.active with
      | true =>
          have hstep : drainSessionLane s k = s := by
            simp [drainSessionLane, getSessionLaneState, hl, hact]
          refine ⟨fun l2 hle hla => hstep, ?_, by rw [hstep], ?_⟩
          · rw [hstep]
            intro hne
            exact absurd rfl hne
          · intro h
            rw [hstep]
            exact h
      | false =>
          cases hq : lane.queue with
          | nil =>
              have hstep : drainSessionLane s k = s := by
                simp [drainSessionLane, getSessionLaneState, hl, hact, hq]
              refine ⟨?_, ?_, by rw [hstep], ?_⟩
              · intro l2 hle hla
                cases hle
                rw [hact] at hla
                exact Bool.noConfusion hla
              · rw [hstep]
                intro hne
                exact absurd rfl hne
              · intro h
                rw [hstep]
                exact h
          | cons entry rest =>
              by_cases hcap : s.activeSessionCount ≥ s.maxConcurrentSessions
              · have hstep : drainSessionLane s k = s := by
                  simp [drainSessionLane, getSessionLaneState, hl, hact, hq, hcap]
                refine ⟨?_, ?_, by rw [hstep], ?_⟩
                · intro l2 hle hla
                  cases hle
                  rw [hact] at hla
                  exact Bool.noConfusion hla
                · rw [hstep]
                  intro hne
                  exact absurd rfl hne
                · intro h
                  rw [hstep]
                  exact h
              · have hstep : drainSessionLane s k =
                    { s with
                      sessionLanes := setA s.sessionLanes k
                        { lane with queue := rest, active := true },
                      activeSessionCount := s.activeSessionCount + 1 } := by
                  simp [drainSessionLane, getSessionLaneState, hl, hact, hq, hcap]
                refine ⟨?_, ?_, by rw [hstep], ?_⟩
                · intro l2 hle hla
                  cases hle
                  rw [hact] at hla
                  exact Bool.noConfusion hla
                · intro hne
                  omega
                · intro hinv
                  obtain ⟨ha, hb, hc⟩ := hinv
                  rw [hstep]
                  have hkeys := setA_keys_present s.sessionLanes k
                    { lane with queue := rest, active := true } lane hl
                  have hcount := numActive_setA s.sessionLanes k
                    { lane with queue := rest, active := true } lane hl
                  rw [hact] at hcount
                  simp at hcount
                  refine ⟨?_, ?_, ?_⟩
                  · show ((setA s.sessionLanes k _).map Prod.fst).Nodup
                    rw [hkeys]
                    exact ha
                  · show s.activeSessionCount + 1 = numActiveSessions _
                    simp only [numActiveSessions] at hb ⊢
                    omega
                  · show s.activeSessionCount + 1 ≤ s.maxConcurrentSessions
                    omega

end CmdQueue

namespace CmdQueue

open SpecUtil

theorem drainWaitingLoop_QInv (ks : List String) :
    ∀ s, QInv s →
      QInv (drainWaitingLoop s ks) ∧
      (drainWaitingLoop s ks).maxConcurrentSessions
        = s.maxConcurrentSessions := by
  induction ks with
  | nil => intro s h; exact ⟨h, rfl⟩
  | cons k ks ih =>
      intro s h
      cases hl : lookupA s.sessionLanes k with
      | none =>
          simp only [drainWaitingLoop, hl]
          exact ih s h
      | some lane =>
          by_cases hcond : ¬lane.active ∧ lane.queue ≠ []
          · simp only [drainWaitingLoop, hl, if_pos hcond]
            have hd := drainSessionLane_spec s k
            have hq := hd.2.2.2 h
            have hm := hd.2.2.1
            by_cases hstop : (drainSessionLane s k).activeSessionCount ≥
                (drainSessionLane s k).maxConcurrentSessions
            · simp only [if_pos hstop]
              exact ⟨hq, hm⟩
            · simp only [if_neg hstop]
              obtain ⟨h1, h2⟩ := ih (drainSessionLane s k) hq
              exact ⟨h1, by rw [h2, hm]⟩
          · simp only [drainWaitingLoop, hl, if_neg hcond]
            exact ih s h

theorem drainWaitingSessions_QInv (s : St) (h : QInv s) :
    QInv (drainWaitingSessions s) := by
  by_cases hcap : s.activeSessionCount ≥ s.maxConcurrentSessions
  · simpa [drainWaitingSessions, hcap] using h
  · simp only [drainWaitingSessions, hcap, if_neg, if_false]
    exact (drainWaitingLoop_QInv (s.sessionLanes.map Prod.fst) s h).1

theorem completeSessionTask_QInv (s : St) (k : String) (h : QInv s) :
    QInv (completeSessionTask s k) := by
  cases hl : lookupA s.sessionLanes k with
  | none => simpa [completeSessionTask, hl] using h
  | some lane =>
      cases hact : lane.active with
      | false => simpa [completeSessionTask, hl, hact] using h
      | true =>
          have hstep : completeSessionTask s k =
              drainWaitingSessions (drainSessionLane
                { s with
                  sessionLanes := setA s.sessionLanes k
                    { lane with active := false },
                  activeSessionCount := s.activeSessionCount - 1 } k) := by
            simp [completeSessionTask, hl, hact]
          rw [hstep]
          apply drainWaitingSessions_QInv
          apply (drainSessionLane_spec _ _).2.2.2
          obtain ⟨ha, hb, hc⟩ := h
          have hkeys := setA_keys_present s.sessionLanes k
            { lane with active := false } lane hl
          have hcount := numActive_setA s.sessionLanes k
            { lane with active := false } lane hl
          rw [hact] at hcount
          simp at hcount
          have hpos := numActive_pos s.sessionLanes k lane hl hact
          refine ⟨?_, ?_, ?_⟩
          · show ((setA s.sessionLanes k _).map Prod.fst).Nodup
            rw [hkeys]
            exact ha
          · show s.activeSessionCount - 1 = numActiveSessions _
            simp only [numActiveSessions] at hb ⊢
            omega
          · show s.activeSessionCount - 1 ≤ s.maxConcurrentSessions
            omega

theorem enqueueSessionTask_QInv (s : St) (k : String)
    (pid w p : Nat) (ow : Option Nat) (h : QInv s) :
    QInv (enqueueSessionTask s k pid w p ow) := by
  by_cases hk : k = ""
  · subst hk
    have hp := enqueueCommandInLane_preserves s mainLane pid w p ow
    have hdel : enqueueSessionTask s "" pid w p ow
        = enqueueCommandInLane s mainLane pid w p ow := by
      simp [enqueueSessionTask]
    rw [hdel]
    exact QInv_of_fields s _ hp.1 hp.2.1 hp.2.2 h
  · cases hl : lookupA s.sessionLanes k with
    | some lane =>
        have hstep : enqueueSessionTask s k pid w p ow =
            drainSessionLane
              { s with
                sessionLanes :=
                  setA s.sessionLanes k
                    { lane with
                      queue :=
                        insertByPriority lane.queue
                          (sessionEntry s.clock k pid w p ow) } }
              k := by
          simp [enqueueSessionTask, hk, getSessionLaneState, hl]
        rw [hstep]
        apply (drainSessionLane_spec _ _).2.2.2
        obtain ⟨ha, hb, hc⟩ := h
        have hkeys := setA_keys_present s.sessionLanes k
          { lane with queue :=
              insertByPriority lane.queue (sessionEntry s.clock k pid w p ow) }
          lane hl
        have hcount := numActive_setA s.sessionLanes k
          { lane with queue :=
              insertByPriority lane.queue (sessionEntry s.clock k pid w p ow) }
          lane hl
        refine ⟨?_, ?_, hc⟩
        · show ((setA s.sessionLanes k _).map Prod.fst).Nodup
          rw [hkeys]
          exact ha
        · show s.activeSessionCount = numActiveSessions _
          simp only [numActiveSessions] at hb ⊢
          cases hact : lane.active <;> rw [hact] at hcount <;>
            simp at hcount <;> omega
    | none =>
        have hfresh : k ∉ s.sessionLanes.map Prod.fst :=
          (lookupA_eq_none_iff s.sessionLanes k).mp hl
        have hstep : enqueueSessionTask s k pid w p ow =
            drainSessionLane
              { s with
                sessionLanes :=
                  setA
                    (s.sessionLanes ++
                      [(k, { sessionKey := k, queue := [], active := false })])
                    k
                    { sessionKey := k,
                      queue :=
                        insertByPriority []
                          (sessionEntry s.clock k pid w p ow),
                      active := false } }
              k := by
          simp [enqueueSessionTask, hk, getSessionLaneState, hl]
        rw [hstep]
        apply (drainSessionLane_spec _ _).2.2.2
        obtain ⟨ha, hb, hc⟩ := h
        have happ : s.sessionLanes ++
            [(k, { sessionKey := k, queue := [], active := false })]
            = setA s.sessionLanes k
                { sessionKey := k, queue := [], active := false } :=
          (setA_absent_eq_append s.sessionLanes k _ hl).symm
        have hl2 : lookupA
            (s.sessionLanes ++
              [(k, { sessionKey := k, queue := [], active := false })]) k
            = some { sessionKey := k, queue := [], active := false } := by
          rw [happ]
          exact lookupA_setA_self _ _ _
        have hkeys2 := setA_keys_present
          (s.sessionLanes ++
            [(k, { sessionKey := k, queue := [], active := false })]) k
          { sessionKey := k,
            queue := insertByPriority [] (sessionEntry s.clock k pid w p ow),
            active := false }
          { sessionKey := k, queue := [], active := false } hl2
        have hcount2 := numActive_setA
          (s.sessionLanes ++
            [(k, { sessionKey := k, queue := [], active := false })]) k
          { sessionKey := k,
            queue := insertByPriority [] (sessionEntry s.clock k pid w p ow),
            active := false }
          { sessionKey := k, queue := [], active := false } hl2
        rw [numActive_append_inactive s.sessionLanes k _ rfl] at hcount2
        refine ⟨?_, ?_, hc⟩
        · show ((setA _ k _).map Prod.fst).Nodup
          rw [hkeys2]
          simp only [List.map_append, List.map_cons, List.map_nil]
          rw [List.nodup_append]
          refine ⟨ha, List.nodup_singleton k, ?_⟩
          intro x hx hx2
          simp only [List.mem_singleton] at hx2
          subst hx2
          exact hfresh hx
        · show s.activeSessionCount = numActiveSessions _
          simp only [numActiveSessions] at hb ⊢
          simp at hcount2
          omega

theorem setMaxConcurrentSessions_QInv (s : St) (m : Nat) (h : QInv s)
    (hcap : s.activeSessionCount ≤ max 1 m) :
    QInv (setMaxConcurrentSessions s m) := by
  obtain ⟨ha, hb, hc⟩ := h
  have h1 : QInv { s with maxConcurrentSessions := max 1 m } := ⟨ha, hb, hcap⟩
  by_cases hgt : max 1 m > s.maxConcurrentSessions
  · simp only [setMaxConcurrentSessions, hgt, if_pos]
    exact drainWaitingSessions_QInv _ h1
  · simpa [setMaxConcurrentSessions, hgt] using h1

theorem completeLaneTask_preserves (s : St) (lane : String) (taskId : Nat) :
    (completeLaneTask s lane taskId).sessionLanes = s.sessionLanes ∧
    (completeLaneTask s lane taskId).activeSessionCount
      = s.activeSessionCount ∧
    (completeLaneTask s lane taskId).maxConcurrentSessions
      = s.maxConcurrentSessions := by
  cases hl : lookupA s.lanes lane with
  | none => simp [completeLaneTask, hl]
  | some state =>
      by_cases ht : taskId ∈ state.activeTaskIds
      · rcases hp : pumpLane (getTotalQueued { state with active := state.active - 1, activeTaskIds := state.activeTaskIds.filter (fun t => t ≠ taskId) }) { state with active := state.active - 1, activeTaskIds := state.activeTaskIds.filter (fun t => t ≠ taskId) } s.nextTaskId with ⟨st2, nid⟩
        simp [completeLaneTask, hl, ht, hp]
      · simp [completeLaneTask, hl, ht]

theorem setCommandLaneConcurrency_preserves (s : St) (lane : String) (m : Nat) :
    (setCommandLaneConcurrency s lane m).sessionLanes = s.sessionLanes ∧
    (setCommandLaneConcurrency s lane m).activeSessionCount
      = s.activeSessionCount ∧
    (setCommandLaneConcurrency s lane m).maxConcurrentSessions
      = s.maxConcurrentSessions := by
  have h := getLaneState_preserves s (cleanLane lane)
  rcases hgl : getLaneState s (cleanLane lane) with ⟨st, s2⟩
  rw [hgl] at h
  simp only [setCommandLaneConcurrency, hgl]
  refine ⟨?_, ?_, ?_⟩
  · rw [(drainLane_preserves _ _).1]; exact h.1
  · rw [(drainLane_preserves _ _).2.1]; exact h.2.1
  · rw [(drainLane_preserves _ _).2.2]; exact h.2.2

theorem step_preserves_QInv (s : St) (e : Ev) (h : QInv s)
    (hcap : capOk s e) : QInv (step s e) := by
  cases e with
  | enqSession k pid w p => exact enqueueSessionTask_QInv s k pid w p none h
  | completeSession k => exact completeSessionTask_QInv s k h
  | enqLane l pid w p =>
      have hp := enqueueCommandInLane_preserves s l pid w p none
      exact QInv_of_fields s _ hp.1 hp.2.1 hp.2.2 h
  | completeLane l t =>
      have hp := completeLaneTask_preserves s l t
      exact QInv_of_fields s _ hp.1 hp.2.1 hp.2.2 h
  | setMaxSessions m => exact setMaxConcurrentSessions_QInv s m h hcap
  | setLaneConcurrency l m =>
      have hp := setCommandLaneConcurrency_preserves s l m
      exact QInv_of_fields s _ hp.1 hp.2.1 hp.2.2 h
  | tick dt => exact QInv_of_fields s _ rfl rfl rfl h

theorem reachable_QInv : ∀ s, ReachableNC s → QInv s := by
  intro s h
  induction h with
  | init =>
      refine ⟨?_, ?_, ?_⟩ <;> simp [state0, numActiveSessions]
  | next s e hr hcap ih => exact step_preserves_QInv s e ih hcap

end CmdQueue

namespace CmdQueue

open SpecUtil

/-- C2 (amended): each session lane runs at most one task (active is a
Boolean and a drain is the identity on a lane whose active flag is
set); a drain changes the active-session count only when the count is
strictly below maxConcurrentSessions (activation only below the cap);
and along every execution from the initial state in which
setMaxConcurrentSessions is never used to lower the cap below the
current active count, activeSessionCount equals the number of active
lanes and never exceeds maxConcurrentSessions.  Lowering the cap below
the active count breaks the bound (see the counterexample); the other
two parts hold unconditionally. -/
theorem spec_C2_session_scheduler_invariants :
    (∀ (s : St) (k : String) (lane : SessionLaneState),
        lookupA s.sessionLanes k = some lane → lane.active = true →
        drainSessionLane s k = s)
    ∧ (∀ (s : St) (k : String),
        (drainSessionLane s k).activeSessionCount ≠ s.activeSessionCount →
        s.activeSessionCount < s.maxConcurrentSessions)
    ∧ (∀ s, ReachableNC s →
        s.activeSessionCount = numActiveSessions s
        ∧ s.activeSessionCount ≤ s.maxConcurrentSessions) :=
  ⟨fun s k lane => (drainSessionLane_spec s k).1 lane,
   fun s k => (drainSessionLane_spec s k).2.1,
   fun s h => ⟨(reachable_QInv s h).2.1, (reachable_QInv s h).2.2⟩⟩

/-- Witness: a drain on a concrete active lane is the identity, and the
initial state satisfies the count invariants. -/
theorem spec_C2_session_scheduler_invariants_witness :
    drainSessionLane
        { lanes := [], nextTaskId := 1,
          sessionLanes :=
            [("a", { sessionKey := "a", queue := [], active := true })],
          maxConcurrentSessions := 16, activeSessionCount := 1, clock := 0 }
        "a"
      = { lanes := [], nextTaskId := 1,
          sessionLanes :=
            [("a", { sessionKey := "a", queue := [], active := true })],
          maxConcurrentSessions := 16, activeSessionCount := 1, clock := 0 }
    ∧ (state0.activeSessionCount = numActiveSessions state0
       ∧ state0.activeSessionCount ≤ state0.maxConcurrentSessions) :=
  ⟨spec_C2_session_scheduler_invariants.1 _ "a"
      { sessionKey := "a", queue := [], active := true } rfl rfl,
   spec_C2_session_scheduler_invariants.2.2 state0 ReachableNC.init⟩

/-- C2 as stated is falsified by a cap decrease: with two sessions
active, setMaxConcurrentSessions(1) leaves two lanes running above the
new cap of one. -/
theorem spec_C2_counterexample :
    (run state0
        [Ev.enqSession "a" 0 2000 1, Ev.enqSession "b" 1 2000 1,
         Ev.setMaxSessions 1]).maxConcurrentSessions = 1
    ∧ (run state0
        [Ev.enqSession "a" 0 2000 1, Ev.enqSession "b" 1 2000 1,
         Ev.setMaxSessions 1]).activeSessionCount = 2
    ∧ numActiveSessions (run state0
        [Ev.enqSession "a" 0 2000 1, Ev.enqSession "b" 1 2000 1,
         Ev.setMaxSessions 1]) = 2 := by
  refine ⟨by decide, by decide, by decide⟩

end CmdQueue

namespace CmdQueue

/-- Witness: the insertion rule evaluated on a concrete queue — a new
Normal entry lands after the existing Urgent and Normal entries and
before none (appended), and the equal-priority entry stays ahead. -/
theorem spec_C6_session_priority_insert_witness :
    insertByPriority [sampleEntry 1 0, sampleEntry 2 1] (sampleEntry 3 1)
        = [sampleEntry 1 0, sampleEntry 2 1] ++ [sampleEntry 3 1]
    ∧ (∀ x ∈ [sampleEntry 1 0, sampleEntry 2 1],
        x.priority = (sampleEntry 3 1).priority →
          x ∈ [sampleEntry 1 0, sampleEntry 2 1].takeWhile
            (fun x => x.priority ≤ (sampleEntry 3 1).priority)) :=
  ⟨(spec_C6_session_priority_insert [sampleEntry 1 0, sampleEntry 2 1]
      (sampleEntry 3 1)).2.1 (by decide),
   (spec_C6_session_priority_insert [sampleEntry 1 0, sampleEntry 2 1]
      (sampleEntry 3 1)).2.2.2 (by decide)⟩

end CmdQueue

namespace Coalesce

/-- Witness: clearing a concrete state with one two-waiter window
empties the map without dropping the promise ids. -/
theorem spec_C10_clearAllWindows_closes_all_witness :
    (clearAllWindows
        { activeWindows :=
            [("a", { sessionKey := "a", messages := [msgN 1],
                     startedAt := 0, waiters := [0, 1] })],
          resolved := [], nextPid := 2 }).activeWindows = []
    ∧ (clearAllWindows
        { activeWindows :=
            [("a", { sessionKey := "a", messages := [msgN 1],
                     startedAt := 0, waiters := [0, 1] })],
          resolved := [], nextPid := 2 }).nextPid = 2 :=
  ⟨(spec_C10_clearAllWindows_closes_all _).1,
   (spec_C10_clearAllWindows_closes_all _).2.2⟩

end Coalesce
